import Mathlib

/-!
Verification of the event-page scraper of the Knightec-Conferences repository.

The development shallowly embeds `src/unnamed/part_004` (the scraper module:
`parseSchemaOrgJsonLd`, `parseDate`, `parsePrice`, `isUrl`,
`extractLocationFromHtml`, `detectCategories`, `parseHtmlFallback`,
`scrapeEventData`) and `src/app/api/scrape-event/route.ts` (the `POST`
endpoint).  JavaScript regular expressions are embedded through a small
backtracking pattern engine (`Pat` / `parses`) that follows the JS ordering
semantics (leftmost start position, greedy or lazy repetition preference,
left-to-right alternation); each source regex is transcribed into one `Pat`
value.  JavaScript strings are modelled as Lean strings (the inputs of
interest are ASCII, where JS UTF-16 lengths and Lean char counts agree).
The effectful `fetch` step of `scrapeEventData` is modelled by taking the
fetched body as an explicit argument; the rest of the pipeline is pure.
JSON numbers are idealised as rationals.
-/

namespace Scraper

/-! ## Basic string helpers (models of the JS string primitives used) -/

/-- JavaScript whitespace characters (the ASCII ones plus NBSP), as matched by
the regex class backslash-s and removed by `String.prototype.trim`. -/
def isJsWs (c : Char) : Bool :=
  c = ' ' || c = '\t' || c = '\n' || c = '\r' || c = '\x0b' || c = '\x0c' ||
  c = '\u00A0'

/-- ASCII lowercasing, the fragment of `String.prototype.toLowerCase` relevant
to the ASCII inputs considered here. -/
def toLowerStr (s : String) : String :=
  ⟨s.data.map Char.toLower⟩

/-- Model of `String.prototype.trim` (ASCII whitespace plus NBSP). -/
def trimJs (s : String) : String :=
  ⟨((s.data.dropWhile isJsWs).reverse.dropWhile isJsWs).reverse⟩

/-- `l₁.isPre l₂`: the char list `l₁` is a prefix of `l₂` (case-sensitive). -/
def isPre : List Char → List Char → Bool
  | [], _ => true
  | _ :: _, [] => false
  | a :: as, b :: bs => a = b && isPre as bs

/-- Case-insensitive (ASCII) prefix test. -/
def isPreCI : List Char → List Char → Bool
  | [], _ => true
  | _ :: _, [] => false
  | a :: as, b :: bs => a.toLower = b.toLower && isPreCI as bs

/-- `hasSub needle hay`: model of `String.prototype.includes` on char lists. -/
def hasSub (needle : List Char) : List Char → Bool
  | [] => needle.isEmpty
  | c :: t => isPre needle (c :: t) || hasSub needle t

/-- Model of `String.prototype.includes`. -/
def containsSub (hay needle : String) : Bool :=
  hasSub needle.data hay.data

/-- The string contains an ASCII uppercase letter: the JS test
`/[A-Z]/.test(s)`. -/
def hasUpper (s : String) : Bool :=
  s.data.any (fun c => 'A' ≤ c && c ≤ 'Z')

/-- Fuel-indexed worker for literal global replacement (fuel bounds the number
of scanning steps; `replaceSubL` supplies enough fuel for the whole input). -/
def replaceSubGo (needle repl : List Char) : Nat → List Char → List Char
  | 0, l => l
  | _, [] => []
  | fuel + 1, c :: t =>
    if !needle.isEmpty && isPre needle (c :: t) then
      repl ++ replaceSubGo needle repl fuel ((c :: t).drop needle.length)
    else
      c :: replaceSubGo needle repl fuel t

/-- Replace every occurrence of the literal `needle` in `hay` by `repl`:
model of `String.prototype.replace` with a global literal pattern.
Left-to-right, non-overlapping. -/
def replaceSubL (needle repl hay : List Char) : List Char :=
  replaceSubGo needle repl (hay.length + 1) hay

/-- String-level literal global replace. -/
def replaceSub (hay needle repl : String) : String :=
  ⟨replaceSubL needle.data repl.data hay.data⟩

/-- Worker for whitespace collapsing; the flag records whether the previous
character was whitespace (i.e. we are inside a run already replaced). -/
def collapseWsGo : Bool → List Char → List Char
  | _, [] => []
  | prevWs, c :: t =>
    if isJsWs c then
      if prevWs then collapseWsGo true t else ' ' :: collapseWsGo true t
    else
      c :: collapseWsGo false t

/-- Collapse runs of JS whitespace to single spaces: the
`.replace(/\s+/g, " ")` step of the visible-text projection. -/
def collapseWs (l : List Char) : List Char :=
  collapseWsGo false l

/-- JS string length of an ASCII string, as `data.length` (for ASCII inputs
UTF-16 code-unit count and scalar count coincide). -/
def jsLen (s : String) : Nat := s.data.length

/-! ## A small pattern engine for the JS regexes of the scraper

Each JavaScript regex of the source is transcribed into a `Pat` value.  The
engine enumerates candidate parses in the preference order JS backtracking
uses: alternation left to right, greedy repetitions longest first, lazy
repetitions shortest first, and matching is attempted at the leftmost start
position first.  The features used by the source (literals with or without
the `i` flag, character classes, bounded and unbounded greedy or lazy
repetition, non-capturing alternation, capture groups, the `^` and `$`
anchors) are all covered; the source uses no lookarounds or backreferences. -/

inductive Pat where
  /-- literal text; the flag is true for a case-insensitive (`i`) regex -/
  | lit : List Char → Bool → Pat
  /-- character class as inclusive ranges; the flag is true for a negated
  class (`[^…]`) -/
  | cls : Bool → List (Char × Char) → Pat
  /-- empty pattern (matches the empty string) -/
  | eps : Pat
  /-- concatenation -/
  | cat : Pat → Pat → Pat
  /-- alternation, left preferred -/
  | alt2 : Pat → Pat → Pat
  /-- `rep lo hi greedy p`: between `lo` and `hi` (`none` = unbounded)
  repetitions of `p`; `greedy` selects longest-first preference -/
  | rep : Nat → Option Nat → Bool → Pat → Pat
  /-- capture group with its 1-based JS group number -/
  | grp : Nat → Pat → Pat
  /-- the `^` anchor (no `m` flag anywhere in the source) -/
  | bos : Pat
  /-- the `$` anchor -/
  | eos : Pat
deriving Repr

/-- Captured groups of one match attempt: group number to captured text. -/
abbrev Caps := List (Nat × List Char)

/-- Character class membership. -/
def clsMatch (neg : Bool) (rs : List (Char × Char)) (c : Char) : Bool :=
  let inR := rs.any (fun r => r.1 ≤ c && c ≤ r.2)
  if neg then !inR else inR

/-- Literal match at the head of the input, optionally case-insensitively. -/
def litHere (cs : List Char) (ci : Bool) (s : List Char) : Bool :=
  if ci then isPreCI cs s else isPre cs s

/-- All parses of a repetition, given a `step` function enumerating the
parses of the body.  Iterations that consume nothing are discarded (JS stops
repeating on an empty body match).  Fuel bounds the iteration count; callers
pass at least `input length + 1`, which suffices because every counted
iteration consumes at least one character. -/
def repP (step : List Char → Nat → List (Nat × Caps)) :
    Nat → Nat → Option Nat → Bool → List Char → Nat → List (Nat × Caps)
  | 0, lo, _, _, _, _ => if lo = 0 then [(0, [])] else []
  | fuel + 1, lo, hi, greedy, s, pos =>
    let stopHere : List (Nat × Caps) := if lo = 0 then [(0, [])] else []
    let go : List (Nat × Caps) :=
      if hi = some 0 then []
      else
        (step s pos).flatMap fun nc =>
          if nc.1 = 0 then []
          else
            (repP step fuel (lo - 1) (hi.map (· - 1)) greedy
                (s.drop nc.1) (pos + nc.1)).map
              fun mc => (nc.1 + mc.1, nc.2 ++ mc.2)
    if greedy then go ++ stopHere else stopHere ++ go

/-- All parses of `p` at suffix `s` (absolute position `pos` in the subject,
used by the anchors), as `(consumed, captures)` pairs in JS preference
order. -/
def parses : Pat → List Char → Nat → List (Nat × Caps)
  | .lit cs ci, s, _ => if litHere cs ci s then [(cs.length, [])] else []
  | .cls neg rs, s, _ =>
    match s with
    | c :: _ => if clsMatch neg rs c then [(1, [])] else []
    | [] => []
  | .eps, _, _ => [(0, [])]
  | .bos, _, pos => if pos = 0 then [(0, [])] else []
  | .eos, s, _ => if s.isEmpty then [(0, [])] else []
  | .cat p q, s, pos =>
    (parses p s pos).flatMap fun nc =>
      (parses q (s.drop nc.1) (pos + nc.1)).map fun mc =>
        (nc.1 + mc.1, nc.2 ++ mc.2)
  | .alt2 p q, s, pos => parses p s pos ++ parses q s pos
  | .rep lo hi greedy p, s, pos =>
    repP (fun s2 pos2 => parses p s2 pos2) (s.length + 1) lo hi greedy s pos
  | .grp i p, s, pos =>
    (parses p s pos).map fun nc => (nc.1, (i, s.take nc.1) :: nc.2)

/-- One regex match: start position, matched length, captures. -/
structure MRes where
  start : Nat
  len : Nat
  caps : Caps
deriving Repr

/-- Leftmost match search from suffix `s` at absolute position `pos`. -/
def scanFrom (p : Pat) : List Char → Nat → Option MRes
  | s, pos =>
    match (parses p s pos).head? with
    | some nc => some ⟨pos, nc.1, nc.2⟩
    | none =>
      match s with
      | [] => none
      | _ :: t => scanFrom p t (pos + 1)

/-- Leftmost match of `p` in `subject`: model of `String.prototype.match`
with a non-global regex (match success and capture groups). -/
def firstMatch (p : Pat) (subject : List Char) : Option MRes :=
  scanFrom p subject 0

/-- Worker for `matchAll`: repeated leftmost search, advancing past each
match (or by one character after an empty match, as JS does). -/
def matchAllGo (p : Pat) : Nat → List Char → Nat → List MRes
  | 0, _, _ => []
  | fuel + 1, s, pos =>
    match scanFrom p s pos with
    | none => []
    | some m =>
      let skip := m.start - pos + m.len
      if m.len = 0 then
        m :: matchAllGo p fuel (s.drop (skip + 1)) (m.start + 1)
      else
        m :: matchAllGo p fuel (s.drop skip) (m.start + m.len)

/-- All matches of a `g`-flagged regex: model of `String.prototype.matchAll`
(and of `match` with a global regex, which yields the full-match texts). -/
def matchAll (p : Pat) (subject : List Char) : List MRes :=
  matchAllGo p (subject.length + 1) subject 0

/-- The full text of a match within `subject`. -/
def mText (subject : List Char) (m : MRes) : List Char :=
  (subject.drop m.start).take m.len

/-- Captured group `i` of a match (`none` models an `undefined` group). -/
def mGrp (m : MRes) (i : Nat) : Option (List Char) :=
  (m.caps.find? (fun c => c.1 = i)).map (·.2)

/-- Capture group `i` as a string. -/
def mGrpS (m : MRes) (i : Nat) : Option String :=
  (mGrp m i).map (⟨·⟩)

/-- Worker for regex global replacement. -/
def replaceAllGo (p : Pat) (repl : List Char) : Nat → List Char → Nat → List Char
  | 0, s, _ => s
  | fuel + 1, s, pos =>
    match scanFrom p s pos with
    | none => s
    | some m =>
      let pre := s.take (m.start - pos)
      if m.len = 0 then
        match s.drop (m.start - pos) with
        | [] => pre ++ repl
        | c :: rest => pre ++ repl ++ [c] ++ replaceAllGo p repl fuel rest (m.start + 1)
      else
        pre ++ repl ++
          replaceAllGo p repl fuel (s.drop (m.start - pos + m.len)) (m.start + m.len)

/-- Model of `String.prototype.replace` with a global regex and a constant
replacement string. -/
def replaceAllP (p : Pat) (repl subject : List Char) : List Char :=
  replaceAllGo p repl (subject.length + 1) subject 0

/-- `test`-style truthiness of `s.match(p)` for a non-global regex. -/
def matchTest (p : Pat) (s : String) : Bool :=
  (firstMatch p s.data).isSome

/-! ### Pattern-building helpers used by the transcriptions -/

/-- Case-sensitive literal. -/
def lits (s : String) : Pat := .lit s.data false

/-- Case-insensitive literal (for `i`-flagged regexes). -/
def litsCI (s : String) : Pat := .lit s.data true

/-- Sequence of patterns. -/
def cseq (l : List Pat) : Pat := l.foldr Pat.cat .eps

/-- A pattern that never matches. -/
def pFail : Pat := .cls false []

/-- Alternation of a list, left preferred. -/
def calt (l : List Pat) : Pat :=
  match l with
  | [] => pFail
  | [p] => p
  | p :: rest => .alt2 p (calt rest)

/-- `p*` (greedy). -/
def star (p : Pat) : Pat := .rep 0 none true p

/-- `p*?` (lazy). -/
def lazyStar (p : Pat) : Pat := .rep 0 none false p

/-- `p+` (greedy). -/
def plus (p : Pat) : Pat := .rep 1 none true p

/-- `p?` (greedy). -/
def popt (p : Pat) : Pat := .rep 0 (some 1) true p

/-- Ranges of the JS whitespace class (ASCII fragment plus NBSP). -/
def wsRanges : List (Char × Char) :=
  [(' ', ' '), ('\t', '\t'), ('\n', '\n'), ('\r', '\r'), ('\x0b', '\x0b'),
   ('\x0c', '\x0c'), ('\u00A0', '\u00A0')]

/-- The class backslash-s. -/
def wsCls : Pat := .cls false wsRanges

/-- The class `[\s:]`. -/
def wsColonCls : Pat := .cls false (wsRanges ++ [(':', ':')])

/-- The class backslash-d. -/
def digitCls : Pat := .cls false [('0', '9')]

/-- `.` under the `s` flag (or the explicit class `[\s\S]`): any character. -/
def anyCh : Pat := .cls true []

/-- `.` without the `s` flag: any character except line terminators. -/
def anyNoNl : Pat :=
  .cls true [('\n', '\n'), ('\r', '\r'), ('\u2028', '\u2028'), ('\u2029', '\u2029')]

/-- The class `[^>]`. -/
def nonGt : Pat := .cls true [('>', '>')]

/-- The class `["']`. -/
def quoteCls : Pat := .cls false [('"', '"'), ('\'', '\'')]

/-- The class `[^"']`. -/
def nonQuote : Pat := .cls true [('"', '"'), ('\'', '\'')]

/-- The class `[^<]`. -/
def nonLt : Pat := .cls true [('<', '<')]

/-! ## JSON values and `JSON.parse`

JSON values as produced by `JSON.parse`: numbers are idealised as exact
rationals (JS uses doubles; the prices and dates exercised here are exactly
representable), objects keep their fields in insertion order with duplicate
keys resolved to the last occurrence on lookup, exactly as JS property
assignment does. -/

inductive Json where
  | null : Json
  | bool : Bool → Json
  | num : ℚ → Json
  | str : String → Json
  | arr : List Json → Json
  | obj : List (String × Json) → Json

/-- Property lookup `j[k]` for string key `k`: defined on objects (last
duplicate wins, as in `JSON.parse` output), `none` (JS `undefined`) on every
other value.  The caller is responsible for the JS `TypeError` on `null`
property access, which this model tracks explicitly at its use sites. -/
def jGet (j : Json) (k : String) : Option Json :=
  match j with
  | .obj fs => fs.foldl (fun acc p => if p.1 = k then some p.2 else acc) none
  | _ => none

/-- JS truthiness of a defined value. -/
def truthy (j : Json) : Bool :=
  match j with
  | .null => false
  | .bool b => b
  | .num q => !(q = 0)
  | .str s => !(s = "")
  | .arr _ => true
  | .obj _ => true

/-- JS truthiness of a possibly-undefined value. -/
def truthyO (j : Option Json) : Bool :=
  match j with
  | none => false
  | some v => truthy v

/-- The scalar-or-first-array-element string extraction used by the source
(`typeof x === "string" ? x : x[0]`).  A non-string array head (which JS
would pass through as a non-string value in the untyped record) is modelled
as absent; the inputs of interest carry strings here. -/
def jFirstStr (j : Json) : Option String :=
  match j with
  | .str s => some s
  | .arr (.str s :: _) => some s
  | _ => none

/-- Coercion of a JSON scalar to the string JS would interpolate: strings
as-is and integer numbers via decimal notation (the address parts exercised
here); other values are modelled as absent. -/
def jsToStr (j : Json) : Option String :=
  match j with
  | .str s => some s
  | .num q => if q.den = 1 then some (toString q.num) else none
  | _ => none

/-- JSON whitespace. -/
def isJsonWs (c : Char) : Bool :=
  c = ' ' || c = '\t' || c = '\n' || c = '\r'

/-- Decimal digit test/value. -/
def digitVal (c : Char) : Nat := c.toNat - '0'.toNat

/-- Worker for `takeDigitsC`. -/
def takeDigitsGo : List Char → Nat → Nat → Nat × Nat × List Char
  | c :: t, acc, n =>
    if c.isDigit then takeDigitsGo t (acc * 10 + digitVal c) (n + 1)
    else (acc, n, c :: t)
  | [], acc, n => (acc, n, [])

/-- Greedy digit run at the head of the input: value, digit count, rest. -/
def takeDigitsC (l : List Char) : Nat × Nat × List Char :=
  takeDigitsGo l 0 0

/-- Hex digit value (`none` when not a hex digit), by code point: `0`–`9`
are 48–57, `A`–`F` are 65–70, `a`–`f` are 97–102. -/
def hexVal (c : Char) : Option Nat :=
  let n := c.toNat
  if 48 ≤ n && n ≤ 57 then some (n - 48)
  else if 97 ≤ n && n ≤ 102 then some (n - 87)
  else if 65 ≤ n && n ≤ 70 then some (n - 55)
  else none

/-- Four-hex-digit escape value. -/
def hex4 : List Char → Option (Nat × List Char)
  | a :: b :: c :: d :: t =>
    match hexVal a, hexVal b, hexVal c, hexVal d with
    | some x, some y, some z, some w => some (((x * 16 + y) * 16 + z) * 16 + w, t)
    | _, _, _, _ => none
  | _ => none

/-- JSON string body after the opening quote.  Escapes are decoded as
`JSON.parse` does; surrogate pairs are combined, lone surrogates are mapped
to U+FFFD (Lean chars are scalar values; the inputs of interest are
ASCII). -/
def jsonString : Nat → List Char → Option (List Char × List Char)
  | 0, _ => none
  | _ + 1, [] => none
  | fuel + 1, c :: t =>
    if c = '"' then some ([], t)
    else if c = '\\' then
      match t with
      | [] => none
      | e :: t2 =>
        let simple : Option Char :=
          if e = '"' then some '"'
          else if e = '\\' then some '\\'
          else if e = '/' then some '/'
          else if e = 'b' then some '\x08'
          else if e = 'f' then some '\x0c'
          else if e = 'n' then some '\n'
          else if e = 'r' then some '\r'
          else if e = 't' then some '\t'
          else none
        match simple with
        | some ch =>
          match jsonString fuel t2 with
          | some (rest, rem) => some (ch :: rest, rem)
          | none => none
        | none =>
          if e = 'u' then
            match hex4 t2 with
            | some (n, t3) =>
              if 0xD800 ≤ n && n ≤ 0xDBFF then
                match t3 with
                | '\\' :: 'u' :: t4 =>
                  match hex4 t4 with
                  | some (n2, t5) =>
                    if 0xDC00 ≤ n2 && n2 ≤ 0xDFFF then
                      let cp := 0x10000 + (n - 0xD800) * 0x400 + (n2 - 0xDC00)
                      match jsonString fuel t5 with
                      | some (rest, rem) =>
                        some ((if cp < 0xD800 ∨ 0xDFFF < cp ∧ cp < 0x110000
                               then Char.ofNat cp else '�') :: rest, rem)
                      | none => none
                    else
                      match jsonString fuel t3 with
                      | some (rest, rem) => some ('�' :: rest, rem)
                      | none => none
                  | none =>
                    match jsonString fuel t3 with
                    | some (rest, rem) => some ('�' :: rest, rem)
                    | none => none
                | _ =>
                  match jsonString fuel t3 with
                  | some (rest, rem) => some ('�' :: rest, rem)
                  | none => none
              else if 0xDC00 ≤ n && n ≤ 0xDFFF then
                match jsonString fuel t3 with
                | some (rest, rem) => some ('�' :: rest, rem)
                | none => none
              else
                match jsonString fuel t3 with
                | some (rest, rem) =>
                  some ((if n < 0xD800 ∨ 0xDFFF < n ∧ n < 0x110000
                         then Char.ofNat n else '�') :: rest, rem)
                | none => none
            | none => none
          else none
    else if c.toNat < 0x20 then none
    else
      match jsonString fuel t with
      | some (rest, rem) => some (c :: rest, rem)
      | none => none

/-- JSON number at the head of the input (strict `JSON.parse` grammar:
optional minus, integer part without leading zeros, optional fraction,
optional exponent), as an exact rational. -/
def jsonNumber (l : List Char) : Option (ℚ × List Char) :=
  let (neg, l1) :=
    match l with
    | '-' :: t => (true, t)
    | _ => (false, l)
  let ip : Option (Nat × List Char) :=
    match l1 with
    | '0' :: t => some (0, t)
    | c :: _ =>
      if '1' ≤ c && c ≤ '9' then
        let (v, n, rest) := takeDigitsC l1
        if n = 0 then none else some (v, rest)
      else none
    | [] => none
  match ip with
  | none => none
  | some (iv, l2) =>
    let fr : Option (ℚ × List Char) :=
      match l2 with
      | '.' :: t =>
        let (fv, fn, rest) := takeDigitsC t
        if fn = 0 then none else some ((fv : ℚ) / (10 : ℚ) ^ fn, rest)
      | _ => some (0, l2)
    match fr with
    | none => none
    | some (fv, l3) =>
      let ex : Option (Int × List Char) :=
        match l3 with
        | e :: t =>
          if e = 'e' || e = 'E' then
            let (esign, t2) :=
              match t with
              | '+' :: t3 => ((1 : Int), t3)
              | '-' :: t3 => ((-1 : Int), t3)
              | _ => ((1 : Int), t)
            let (ev, en, rest) := takeDigitsC t2
            if en = 0 then none else some (esign * ev, rest)
          else some (0, e :: t)
        | [] => some (0, [])
      match ex with
      | none => none
      | some (ev, l4) =>
        let mag : ℚ := ((iv : ℚ) + fv) *
          (if 0 ≤ ev then (10 : ℚ) ^ ev.toNat else ((10 : ℚ) ^ (-ev).toNat)⁻¹)
        some (if neg then -mag else mag, l4)

/-- Array-item loop of the JSON parser, parameterised by the value parser
(the fuel of the loop is independent of the value parser's). -/
def jsonItems (pv : List Char → Option (Json × List Char)) :
    Nat → List Char → List Json → Option (Json × List Char)
  | 0, _, _ => none
  | f + 1, rest, acc =>
    match pv rest with
    | none => none
    | some (v, r1) =>
      let r2 := r1.dropWhile isJsonWs
      match r2 with
      | ',' :: r3 => jsonItems pv f r3 (v :: acc)
      | ']' :: r3 => some (.arr (v :: acc).reverse, r3)
      | _ => none

/-- Object-field loop of the JSON parser. -/
def jsonFields (pv : List Char → Option (Json × List Char)) :
    Nat → List Char → List (String × Json) → Option (Json × List Char)
  | 0, _, _ => none
  | f + 1, rest, acc =>
    let rest := rest.dropWhile isJsonWs
    match rest with
    | '"' :: r0 =>
      match jsonString (r0.length + 1) r0 with
      | none => none
      | some (key, r1) =>
        let r2 := r1.dropWhile isJsonWs
        match r2 with
        | ':' :: r3 =>
          match pv r3 with
          | none => none
          | some (v, r4) =>
            let r5 := r4.dropWhile isJsonWs
            match r5 with
            | ',' :: r6 => jsonFields pv f r6 ((⟨key⟩, v) :: acc)
            | '\x7d' :: r6 => some (.obj ((⟨key⟩, v) :: acc).reverse, r6)
            | _ => none
        | _ => none
    | _ => none

/-- JSON value parser (fuel-indexed recursive descent; fuel decreases once
per nesting level, so input length plus one suffices since every nesting
step consumes at least one character). -/
def jsonVal : Nat → List Char → Option (Json × List Char)
  | 0, _ => none
  | fuel + 1, l =>
    let l := l.dropWhile isJsonWs
    match l with
    | [] => none
    | c :: t =>
      if c = 'n' then
        if isPre "ull".data t then some (.null, t.drop 3) else none
      else if c = 't' then
        if isPre "rue".data t then some (.bool true, t.drop 3) else none
      else if c = 'f' then
        if isPre "alse".data t then some (.bool false, t.drop 4) else none
      else if c = '"' then
        match jsonString (t.length + 1) t with
        | some (cs, rest) => some (.str ⟨cs⟩, rest)
        | none => none
      else if c = '[' then
        let t1 := t.dropWhile isJsonWs
        match t1 with
        | ']' :: r => some (.arr [], r)
        | _ => jsonItems (jsonVal fuel) (t.length + 1) t []
      else if c = '\x7b' then
        let t1 := t.dropWhile isJsonWs
        match t1 with
        | '\x7d' :: r => some (.obj [], r)
        | _ => jsonFields (jsonVal fuel) (t.length + 1) t []
      else
        match jsonNumber (c :: t) with
        | some (q, rest) => some (.num q, rest)
        | none => none

/-- Model of `JSON.parse`: `none` models a thrown `SyntaxError`. -/
def jsonParse (s : String) : Option Json :=
  match jsonVal (s.data.length + 1) s.data with
  | some (v, rest) => if (rest.dropWhile isJsonWs).isEmpty then some v else none
  | none => none

/-! ## Calendar dates and the date parsing runtime

`parseDate` (source lines 140–181) delegates to `new Date(...)` (the V8
runtime) and to date-fns `parse` with a fixed format list, and truncates the
successful parse to its calendar date via `toISOString().split("T")[0]`.
The two parsing backends are external runtimes, modelled here from the
spec's description (§4.5: "native date-time parsing of the input string; a
fixed list of explicit format patterns (plain date, date-time with/without
trailing Z, US and European slash/dash variants); a final bare-constructor
parse attempt.  First successful parse is truncated to its calendar-date
component"; "No timezone conversion is performed — calendar date only").
The runtime timezone is modelled as UTC (the spec's calendar-date reading;
a server east of UTC would shift locally-parsed formats by a day), years
are kept to at most four digits as produced by the modelled formats, and
the `T24:00` ISO edge is treated as invalid. -/

structure Ymd where
  y : Nat
  m : Nat
  d : Nat
deriving DecidableEq, Repr

/-- Gregorian leap year. -/
def isLeap (y : Nat) : Bool :=
  (y % 4 = 0 && !(y % 100 = 0)) || y % 400 = 0

/-- Days in a month. -/
def daysInMonth (y m : Nat) : Nat :=
  if m = 2 then (if isLeap y then 29 else 28)
  else if m = 4 || m = 6 || m = 9 || m = 11 then 30
  else 31

/-- A valid calendar date of the modelled range (four-digit year). -/
def validYmd (v : Ymd) : Bool :=
  1 ≤ v.m && v.m ≤ 12 && 1 ≤ v.d && v.d ≤ daysInMonth v.y v.m && v.y ≤ 9999

/-- Next calendar day (for positive-offset ISO datetimes crossing midnight). -/
def nextDay (v : Ymd) : Ymd :=
  if v.d < daysInMonth v.y v.m then ⟨v.y, v.m, v.d + 1⟩
  else if v.m < 12 then ⟨v.y, v.m + 1, 1⟩
  else ⟨v.y + 1, 1, 1⟩

/-- Previous calendar day. -/
def prevDay (v : Ymd) : Ymd :=
  if 1 < v.d then ⟨v.y, v.m, v.d - 1⟩
  else if 1 < v.m then ⟨v.y, v.m - 1, daysInMonth v.y (v.m - 1)⟩
  else ⟨v.y - 1, 12, 31⟩

/-- Decimal digit character. -/
def digitChar (n : Nat) : Char := Char.ofNat ('0'.toNat + n)

/-- Two-digit zero-padded rendering. -/
def pad2 (n : Nat) : List Char := [digitChar (n / 10 % 10), digitChar (n % 10)]

/-- Four-digit zero-padded rendering. -/
def pad4 (n : Nat) : List Char :=
  [digitChar (n / 1000 % 10), digitChar (n / 100 % 10), digitChar (n / 10 % 10),
   digitChar (n % 10)]

/-- `toISOString().split("T")[0]` of a date whose UTC time-of-day is
irrelevant: the `YYYY-MM-DD` rendering. -/
def formatYmd (v : Ymd) : String :=
  ⟨pad4 v.y ++ '-' :: pad2 v.m ++ '-' :: pad2 v.d⟩

/-- Exactly-two-digit numeric field. -/
def twoDigits : List Char → Option (Nat × List Char)
  | a :: b :: t =>
    if a.isDigit && b.isDigit then some (digitVal a * 10 + digitVal b, t) else none
  | _ => none

/-- Exactly-four-digit numeric field. -/
def fourDigits : List Char → Option (Nat × List Char)
  | a :: b :: c :: d :: t =>
    if a.isDigit && b.isDigit && c.isDigit && d.isDigit then
      some (((digitVal a * 10 + digitVal b) * 10 + digitVal c) * 10 + digitVal d, t)
    else none
  | _ => none

/-- Modelled from the spec (§4.5 native parsing): the ISO time suffix
`THH:mm[:ss[.s+]][Z or ±HH:mm]` accepted after an ISO date.  Returns the
day shift (−1, 0, or +1) induced by converting a signed offset to UTC;
absent offsets are local time, equal to UTC in the modelled runtime. -/
def isoTimeSuffix (l : List Char) : Option Int :=
  match l with
  | 'T' :: t =>
    match twoDigits t with
    | none => none
    | some (hh, t1) =>
      match t1 with
      | ':' :: t2 =>
        match twoDigits t2 with
        | none => none
        | some (mm, t3) =>
          let afterSec : Option (List Char) :=
            match t3 with
            | ':' :: t4 =>
              match twoDigits t4 with
              | none => none
              | some (ss, t5) =>
                if ss ≤ 59 then
                  match t5 with
                  | '.' :: t6 =>
                    let (_, n, t7) := takeDigitsC t6
                    if n = 0 then none else some t7
                  | _ => some t5
                else none
            | _ => some t3
          match afterSec with
          | none => none
          | some rest =>
            if hh ≤ 23 && mm ≤ 59 then
              match rest with
              | [] => some 0
              | ['Z'] => some 0
              | sgn :: r1 =>
                if sgn = '+' || sgn = '-' then
                  match twoDigits r1 with
                  | none => none
                  | some (oh, r2) =>
                    match r2 with
                    | ':' :: r3 =>
                      match twoDigits r3 with
                      | some (om, []) =>
                        if oh ≤ 23 && om ≤ 59 then
                          -- the UTC instant is local minus the offset: with a
                          -- positive offset a time earlier than the offset
                          -- rolls back a day, with a negative offset a time
                          -- in the last offset-span of the day rolls forward
                          if sgn = '+' then
                            some (if hh * 60 + mm < oh * 60 + om then -1 else 0)
                          else
                            some (if 24 * 60 ≤ hh * 60 + mm + oh * 60 + om then 1 else 0)
                        else none
                      | _ => none
                    | _ => none
                else none
            else none
      | _ => none
  | _ => none

/-- Modelled from the spec (§4.5 "native date-time parsing"): ECMAScript
ISO-format acceptance of `new Date(string)` — `YYYY[-MM[-DD]]` with an
optional time suffix, date-only forms interpreted as UTC.  Extended
(six-digit, signed) years are outside the modelled range. -/
def parseIsoDate (l : List Char) : Option Ymd :=
  match fourDigits l with
  | none => none
  | some (y, r1) =>
    match r1 with
    | [] => some ⟨y, 1, 1⟩
    | '-' :: r2 =>
      match twoDigits r2 with
      | none => none
      | some (m, r3) =>
        match r3 with
        | [] => if 1 ≤ m && m ≤ 12 then some ⟨y, m, 1⟩ else none
        | '-' :: r4 =>
          match twoDigits r4 with
          | none => none
          | some (d, r5) =>
            if validYmd ⟨y, m, d⟩ then
              match r5 with
              | [] => some ⟨y, m, d⟩
              | _ =>
                match isoTimeSuffix r5 with
                | some shift =>
                  if shift = 1 then some (nextDay ⟨y, m, d⟩)
                  else if shift = -1 then some (prevDay ⟨y, m, d⟩)
                  else some ⟨y, m, d⟩
                | none => none
            else none
        | _ =>
          if 1 ≤ m && m ≤ 12 then
            match isoTimeSuffix r3 with
            | some _ => some ⟨y, m, 1⟩
            | none => none
          else none
    | _ =>
      match isoTimeSuffix r1 with
      | some _ => some ⟨y, 1, 1⟩
      | none => none

/-- One-or-two-digit numeric field. -/
def oneTwoDigits : List Char → Option (Nat × List Char)
  | a :: b :: t =>
    if a.isDigit then
      if b.isDigit then some (digitVal a * 10 + digitVal b, t)
      else some (digitVal a, b :: t)
    else none
  | [a] => if a.isDigit then some (digitVal a, []) else none
  | _ => none

/-- Modelled from the spec (§4.5 native parsing): the V8 legacy
month/day/year form `M/D/YYYY` (also with dash separators), local time,
equal to UTC in the modelled runtime. -/
def parseUsLegacy (l : List Char) : Option Ymd :=
  match oneTwoDigits l with
  | none => none
  | some (m, r1) =>
    match r1 with
    | s1 :: r2 =>
      if s1 = '/' || s1 = '-' then
        match oneTwoDigits r2 with
        | none => none
        | some (d, r3) =>
          match r3 with
          | s2 :: r4 =>
            if s2 = '/' || s2 = '-' then
              match fourDigits r4 with
              | some (y, []) =>
                if validYmd ⟨y, m, d⟩ then some ⟨y, m, d⟩ else none
              | _ => none
            else none
          | [] => none
      else none
    | [] => none

/-- Modelled from the spec (§4.5 "native date-time parsing of the input
string"): `new Date(string)` followed by the `isValid` check, returning the
UTC calendar date.  ISO forms first, then the legacy US form. -/
def jsNewDate (s : String) : Option Ymd :=
  match parseIsoDate s.data with
  | some v => some v
  | none => parseUsLegacy s.data

/-- The format tokens of the date-fns patterns used by the source. -/
inductive FTok where
  /-- `yyyy`: one to four digits -/
  | year : FTok
  /-- `MM`: one or two digits, 1–12 -/
  | month : FTok
  /-- `dd`: one or two digits, 1–31 -/
  | day : FTok
  /-- `HH`: one or two digits, 0–23 -/
  | hour : FTok
  /-- `mm` or `ss`: one or two digits, 0–59 -/
  | minSec : FTok
  /-- a literal character (including quoted literals such as `'T'`) -/
  | litc : Char → FTok

/-- Greedy one-to-four-digit field (the date-fns `yyyy` token). -/
def upToFourDigits (l : List Char) : Option (Nat × List Char) :=
  match l with
  | a :: b :: c :: d :: t =>
    if a.isDigit then
      if b.isDigit then
        if c.isDigit then
          if d.isDigit then
            some (((digitVal a * 10 + digitVal b) * 10 + digitVal c) * 10 + digitVal d, t)
          else some ((digitVal a * 10 + digitVal b) * 10 + digitVal c, d :: t)
        else some (digitVal a * 10 + digitVal b, c :: d :: t)
      else some (digitVal a, b :: c :: d :: t)
    else none
  | _ =>
    match oneTwoDigits l with
    | some (v, r) =>
      match r with
      | c :: t => if c.isDigit then some (v * 10 + digitVal c, t) else some (v, r)
      | [] => some (v, [])
    | none => none

/-- Modelled from the spec (§4.5 "a fixed list of explicit format
patterns"): date-fns `parse` against one token list.  Numeric tokens are
greedy with per-token range validation, the whole input must be consumed,
and the day is validated against the month length; unparsed time-of-day
defaults to local midnight, so the calendar date is the parsed one. -/
def runFmt : List FTok → List Char → Option Ymd → Option Ymd
  | [], [], acc => acc
  | [], _ :: _, _ => none
  | tok :: rest, l, acc =>
    match tok with
    | .litc c =>
      match l with
      | c2 :: t => if c2 = c then runFmt rest t acc else none
      | [] => none
    | .year =>
      match upToFourDigits l with
      | some (y, t) =>
        runFmt rest t (match acc with
          | some v => some ⟨y, v.m, v.d⟩
          | none => some ⟨y, 0, 0⟩)
      | none => none
    | .month =>
      match oneTwoDigits l with
      | some (m, t) =>
        if 1 ≤ m && m ≤ 12 then
          runFmt rest t (match acc with
            | some v => some ⟨v.y, m, v.d⟩
            | none => some ⟨0, m, 0⟩)
        else none
      | none => none
    | .day =>
      match oneTwoDigits l with
      | some (d, t) =>
        if 1 ≤ d && d ≤ 31 then
          runFmt rest t (match acc with
            | some v => some ⟨v.y, v.m, d⟩
            | none => some ⟨0, 0, d⟩)
        else none
      | none => none
    | .hour =>
      match oneTwoDigits l with
      | some (h, t) => if h ≤ 23 then runFmt rest t acc else none
      | none => none
    | .minSec =>
      match oneTwoDigits l with
      | some (x, t) => if x ≤ 59 then runFmt rest t acc else none
      | none => none

/-- date-fns parse of one format string, with final calendar validation. -/
def dateFnsParse (toks : List FTok) (s : String) : Option Ymd :=
  match runFmt toks s.data none with
  | some v => if validYmd v then some v else none
  | none => none

/-- The six format strings of the source's `formats` list (lines 151–158),
as token lists: `yyyy-MM-dd`, `yyyy-MM-dd'T'HH:mm:ss`,
`yyyy-MM-dd'T'HH:mm:ss'Z'`, `MM/dd/yyyy`, `dd/MM/yyyy`, `dd-MM-yyyy`. -/
def dateFormats : List (List FTok) :=
  [[.year, .litc '-', .month, .litc '-', .day],
   [.year, .litc '-', .month, .litc '-', .day, .litc 'T', .hour, .litc ':',
    .minSec, .litc ':', .minSec],
   [.year, .litc '-', .month, .litc '-', .day, .litc 'T', .hour, .litc ':',
    .minSec, .litc ':', .minSec, .litc 'Z'],
   [.month, .litc '/', .day, .litc '/', .year],
   [.day, .litc '/', .month, .litc '/', .year],
   [.day, .litc '-', .month, .litc '-', .year]]

/-- First format of the list that parses (the source's `for` loop over
`formats`). -/
def dateFnsFirst (s : String) : Option Ymd :=
  (dateFormats.map (fun f => dateFnsParse f s)).foldl
    (fun acc r => match acc with | some v => some v | none => r) none

/-- Source `parseDate` (lines 140–181): empty/falsy input is `null`; try
`new Date`, then the date-fns format list, then `new Date` again (the
source's identical "last resort" call); a success is rendered as its
calendar date `YYYY-MM-DD`. -/
def parseDate (dateStr : String) : Option String :=
  if dateStr = "" then none
  else
    match jsNewDate dateStr with
    | some v => some (formatYmd v)
    | none =>
      match dateFnsFirst dateStr with
      | some v => some (formatYmd v)
      | none =>
        match jsNewDate dateStr with
        | some v => some (formatYmd v)
        | none => none

/-! ## Price normalization (`parsePrice`, source lines 188–205) -/

/-- The runtime argument of `parsePrice` (`string | number` in TS, but the
untyped call sites pass whatever the JSON carried). -/
inductive PriceIn where
  | num : ℚ → PriceIn
  | str : String → PriceIn

/-- A digit-or-comma character (the class `[\d,]`). -/
def isDigitComma (c : Char) : Bool := c.isDigit || c = ','

/-- Leftmost match of `/[\d,]+\.?\d*/`: maximal digit-or-comma run from the
first such character, an optional dot, then a maximal digit run.  (No
backtracking is needed: everything after the mandatory run is optional and
greedy.)  Returns the matched text. -/
def firstNumRun : List Char → Option (List Char)
  | [] => none
  | c :: t =>
    if isDigitComma c then
      let run := (c :: t).takeWhile isDigitComma
      let rest := (c :: t).dropWhile isDigitComma
      match rest with
      | '.' :: r2 => some (run ++ '.' :: r2.takeWhile Char.isDigit)
      | _ => some run
    else firstNumRun t

/-- The value of a decimal digit list. -/
def natOfDigits (l : List Char) : Nat :=
  l.foldl (fun a c => a * 10 + digitVal c) 0

/-- The fractional digits of the run: the digits after a dot that follows
the integer digits. -/
def fracPart (l : List Char) : List Char :=
  match l.dropWhile Char.isDigit with
  | '.' :: r => r.takeWhile Char.isDigit
  | _ => []

/-- Model of `parseFloat` on the comma-stripped match text (shape
`digits* (dot digits*)?`): `NaN`, modelled as `none`, exactly when no digit
is present; otherwise the exact decimal value. -/
def parseFloatRun (l : List Char) : Option ℚ :=
  if (l.takeWhile Char.isDigit).isEmpty && (fracPart l).isEmpty then none
  else
    some ((natOfDigits (l.takeWhile Char.isDigit) : ℚ) +
      (natOfDigits (fracPart l) : ℚ) / (10 : ℚ) ^ (fracPart l).length)

/-- Source `parsePrice` (lines 188–205): numbers are returned unchanged;
falsy strings give `null`; otherwise the first `[\d,]+\.?\d*` match has its
commas stripped and is parsed as a float, `null` on `NaN` or no match. -/
def parsePrice (priceStr : PriceIn) : Option ℚ :=
  match priceStr with
  | .num q => some q
  | .str s =>
    if s = "" then none
    else
      match firstNumRun s.data with
      | some run => parseFloatRun (run.filter (fun c => !(c = ',')))
      | none => none

/-! ## `isUrl` and the orchestrator's URL checks -/

/-- The regex `/^https?:\/\//i`. -/
def startsHttpCI (s : String) : Bool :=
  isPreCI "http://".data s.data || isPreCI "https://".data s.data

/-- The regex `/^[a-z]+:\/\//i`: one or more ASCII letters then `://`. -/
def startsSchemeCI (s : String) : Bool :=
  let letters := s.data.takeWhile (fun c => c.isAlpha)
  !letters.isEmpty && isPre "://".data (s.data.dropWhile (fun c => c.isAlpha))

/-- Source `isUrl` (lines 224–231): the plausibility test used by the
heuristic location extractor. -/
def isUrl (str : String) : Bool :=
  startsHttpCI str ||
  containsSub str "www." ||
  containsSub str ".com" ||
  containsSub str ".se" ||
  containsSub str ".org" ||
  startsSchemeCI str

/-- The orchestrator's looks-like-a-URL test on a present location (source
lines 604–607 and 611–614): `includes("http")`, `includes("www.")`, or
`/^https?:\/\//i`. -/
def locValLooksUrl (l : String) : Bool :=
  containsSub l "http" || containsSub l "www." || startsHttpCI l

/-- JS truthiness of an optional string field. -/
def strTruthy (o : Option String) : Bool :=
  match o with
  | some s => !(s = "")
  | none => false

/-- The orchestrator's re-extraction trigger (line 604):
`!schemaData.location || <looks like a URL>`. -/
def needsRelocation (o : Option String) : Bool :=
  !(strTruthy o) || locValLooksUrl (o.getD "")

/-- The orchestrator's clearing condition (lines 611–614):
`schemaData.location && <looks like a URL>`. -/
def locLooksUrlO (o : Option String) : Bool :=
  strTruthy o && locValLooksUrl (o.getD "")

/-! ## The heuristic location extractor (`extractLocationFromHtml`,
source lines 236–405)

Every source regex of the extractor is transcribed below.  Classes written
`[A-Z]`/`[a-z]`/`[A-Z0-9]` inside `i`-flagged regexes match both cases and
are transcribed with both ranges; the two `textContentPatterns` regexes
carry no `i` flag and keep their case-sensitive classes. -/

/-- First `some` of a list (the first extraction attempt that returns). -/
def firstSomeL {α : Type} : List (Option α) → Option α
  | [] => none
  | some a :: _ => some a
  | none :: t => firstSomeL t

/-- `[A-Z]` (or `[a-z]`) under the `i` flag: any ASCII letter. -/
def letterCI : Pat := .cls false [('A', 'Z'), ('a', 'z')]

/-- `[A-Z0-9]` under the `i` flag. -/
def alnumCI : Pat := .cls false [('A', 'Z'), ('a', 'z'), ('0', '9')]

/-- `[A-Z]` case-sensitive. -/
def upperCls : Pat := .cls false [('A', 'Z')]

/-- `[a-z]` case-sensitive. -/
def lowerCls : Pat := .cls false [('a', 'z')]

/-- `[A-Za-z0-9\s,&-]`. -/
def locChs : Pat :=
  .cls false ([('A', 'Z'), ('a', 'z'), ('0', '9')] ++ wsRanges ++
    [(',', ','), ('&', '&'), ('-', '-')])

/-- `[a-z-]`. -/
def lcDashCls : Pat := .cls false [('a', 'z'), ('-', '-')]

/-- `/<meta[^>]*property=["']og:locality["'][^>]*content=["']([^"']+)["']/i` -/
def pMeta1 : Pat := cseq [litsCI "<meta", star nonGt, litsCI "property=",
  quoteCls, litsCI "og:locality", quoteCls, star nonGt, litsCI "content=",
  quoteCls, .grp 1 (plus nonQuote), quoteCls]

/-- `/<meta[^>]*name=["']location["'][^>]*content=["']([^"']+)["']/i` -/
def pMeta2 : Pat := cseq [litsCI "<meta", star nonGt, litsCI "name=",
  quoteCls, litsCI "location", quoteCls, star nonGt, litsCI "content=",
  quoteCls, .grp 1 (plus nonQuote), quoteCls]

/-- `/<meta[^>]*name=["']geo.placename["'][^>]*content=["']([^"']+)["']/i`
(the unescaped `.` is any non-newline character). -/
def pMeta3 : Pat := cseq [litsCI "<meta", star nonGt, litsCI "name=",
  quoteCls, litsCI "geo", anyNoNl, litsCI "placename", quoteCls, star nonGt,
  litsCI "content=", quoteCls, .grp 1 (plus nonQuote), quoteCls]

/-- `/<[^>]*data-location=["']([^"']+)["'][^>]*>/i` -/
def pData1 : Pat := cseq [lits "<", star nonGt, litsCI "data-location=",
  quoteCls, .grp 1 (plus nonQuote), quoteCls, star nonGt, lits ">"]

/-- `/<[^>]*data-venue=["']([^"']+)["'][^>]*>/i` -/
def pData2 : Pat := cseq [lits "<", star nonGt, litsCI "data-venue=",
  quoteCls, .grp 1 (plus nonQuote), quoteCls, star nonGt, lits ">"]

/-- `/<[^>]*itemprop=["']location["'][^>]*>.*?<[^>]*itemprop=["']name["'][^>]*>([^<]+)</i` -/
def pData3 : Pat := cseq [lits "<", star nonGt, litsCI "itemprop=", quoteCls,
  litsCI "location", quoteCls, star nonGt, lits ">", lazyStar anyNoNl,
  lits "<", star nonGt, litsCI "itemprop=", quoteCls, litsCI "name", quoteCls,
  star nonGt, lits ">", .grp 1 (plus nonLt), lits "<"]

/-- `/<script[^>]*>[\s\S]*?<\/script>/gi` (visible-text projection). -/
def pScriptBlk : Pat := cseq [litsCI "<script", star nonGt, lits ">",
  lazyStar anyCh, litsCI "</script>"]

/-- `/<style[^>]*>[\s\S]*?<\/style>/gi` -/
def pStyleBlk : Pat := cseq [litsCI "<style", star nonGt, lits ">",
  lazyStar anyCh, litsCI "</style>"]

/-- `/<[^>]+>/g` -/
def pTag : Pat := cseq [lits "<", plus nonGt, lits ">"]

/-- The visible-text projection of the markup (source lines 274–281):
scripts and styles removed, tags replaced by spaces, `&nbsp;`/`&amp;`
decoded, whitespace collapsed, trimmed. -/
def textContentOf (html : String) : String :=
  trimJs ⟨collapseWs (replaceSubL "&amp;".data "&".data
    (replaceSubL "&nbsp;".data " ".data
      (replaceAllP pTag " ".data
        (replaceAllP pStyleBlk []
          (replaceAllP pScriptBlk [] html.data)))))⟩

/-- `/_Where\?_\s+([A-Z0-9][A-Za-z0-9\s,&-]{10,150})(?:\s+&|\s+Online|$)/i` -/
def pWhereU : Pat := cseq [litsCI "_where?_", plus wsCls,
  .grp 1 (.cat alnumCI (.rep 10 (some 150) true locChs)),
  calt [cseq [plus wsCls, lits "&"], cseq [plus wsCls, litsCI "online"], .eos]]

/-- `/Where\?\s+([A-Z0-9][A-Za-z0-9\s,&-]{10,150})(?:\s+&|\s+Online|$)/i` -/
def pWhereP : Pat := cseq [litsCI "where?", plus wsCls,
  .grp 1 (.cat alnumCI (.rep 10 (some 150) true locChs)),
  calt [cseq [plus wsCls, lits "&"], cseq [plus wsCls, litsCI "online"], .eos]]

/-- `/(\d+[A-Z]?\s+[A-Z][a-z]+(?:\s+[A-Z][a-z]+)*),\s*([A-Z][a-z]+),\s*([A-Z][a-z]+(?:\s+&?\s*Online)?)/i` -/
def pAddr : Pat := cseq [
  .grp 1 (cseq [plus digitCls, popt letterCI, plus wsCls, letterCI,
    plus letterCI, star (cseq [plus wsCls, letterCI, plus letterCI])]),
  lits ",", star wsCls,
  .grp 2 (cseq [letterCI, plus letterCI]),
  lits ",", star wsCls,
  .grp 3 (cseq [letterCI, plus letterCI,
    popt (cseq [plus wsCls, popt (lits "&"), star wsCls, litsCI "online"])])]

/-- `/(?:>|^)(\d+[A-Z]?\s+[A-Z][a-z]+(?:\s+[A-Z][a-z]+)*),\s*([A-Z][a-z]+),\s*([A-Z][a-z]+(?:\s+&?\s*Online)?)(?:<|$)/g` -/
def pTextA : Pat := cseq [calt [lits ">", .bos],
  .grp 1 (cseq [plus digitCls, popt upperCls, plus wsCls, upperCls,
    plus lowerCls, star (cseq [plus wsCls, upperCls, plus lowerCls])]),
  lits ",", star wsCls,
  .grp 2 (cseq [upperCls, plus lowerCls]),
  lits ",", star wsCls,
  .grp 3 (cseq [upperCls, plus lowerCls,
    popt (cseq [plus wsCls, popt (lits "&"), star wsCls, lits "Online"])]),
  calt [lits "<", .eos]]

/-- `/(?:>|^)([A-Z][a-z]+(?:\s+[A-Z][a-z]+)*),\s*([A-Z][a-z]+(?:\s+[A-Z][a-z]+)*)(?:<|$)/g` -/
def pTextB : Pat := cseq [calt [lits ">", .bos],
  .grp 1 (cseq [upperCls, plus lowerCls,
    star (cseq [plus wsCls, upperCls, plus lowerCls])]),
  lits ",", star wsCls,
  .grp 2 (cseq [upperCls, plus lowerCls,
    star (cseq [plus wsCls, upperCls, plus lowerCls])]),
  calt [lits "<", .eos]]

/-- `/(?:^|>)\s*(?:Where\?|Location|Venue|Place|Address)[\s:]*([A-Z0-9][A-Za-z0-9\s,&-]{10,150})(?:<|$)/gi` -/
def pKeywordLoc : Pat := cseq [calt [.bos, lits ">"], star wsCls,
  calt [litsCI "where?", litsCI "location", litsCI "venue", litsCI "place",
    litsCI "address"],
  star wsColonCls,
  .grp 1 (.cat alnumCI (.rep 10 (some 150) true locChs)),
  calt [lits "<", .eos]]

/-- `/^[a-z-]+$/` -/
def pLcDashFull : Pat := cseq [.bos, plus lcDashCls, .eos]

/-- `/^[a-z-]+\s+[a-z-]+$/` -/
def pLcDashPair : Pat := cseq [.bos, plus lcDashCls, plus wsCls,
  plus lcDashCls, .eos]

/-- `/^[a-z-]+\s*$/` -/
def pLcDashWsEnd : Pat := cseq [.bos, plus lcDashCls, star wsCls, .eos]

/-- `/^(date|time|when|price|cost|ticket|register|click|here)$/i`: a
case-insensitive whole-string match against the filtered words. -/
def isFilteredWord (l : String) : Bool :=
  ["date", "time", "when", "price", "cost", "ticket", "register", "click",
   "here"].contains (toLowerStr l)

/-- Strip tags with empty replacement: `.replace(/<[^>]+>/g, "")`. -/
def stripTags (s : String) : String :=
  ⟨replaceAllP pTag [] s.data⟩

/-- `.replace(/^>|<$/g, "")`: one leading `>` and one trailing `<`. -/
def stripGtLt (l : List Char) : List Char :=
  let l1 := match l with
    | '>' :: t => t
    | _ => l
  match l1.reverse with
  | '<' :: t => t.reverse
  | _ => l1

/-- One meta pattern attempt (source lines 244–252): the trimmed capture
must pass `!isUrl`, length > 3, length < 200. -/
def metaAttempt (p : Pat) (html : String) : Option String :=
  match firstMatch p html.data with
  | some m =>
    match mGrpS m 1 with
    | some g =>
      if !(g = "") then
        let location := trimJs g
        if !isUrl location && jsLen location > 3 && jsLen location < 200 then
          some location
        else none
      else none
    | none => none
  | none => none

/-- Meta-tag strategy (source lines 238–252). -/
def tryMetaLoc (html : String) : Option String :=
  firstSomeL ([pMeta1, pMeta2, pMeta3].map fun p => metaAttempt p html)

/-- One data-attribute pattern attempt (source lines 261–269): tag-stripped
trimmed capture, filtered by length > 3, length < 200, `!isUrl`. -/
def dataAttempt (p : Pat) (html : String) : Option String :=
  match firstMatch p html.data with
  | some m =>
    match mGrpS m 1 with
    | some g =>
      if !(g = "") then
        let location := trimJs (stripTags g)
        if jsLen location > 3 && jsLen location < 200 && !isUrl location then
          some location
        else none
      else none
    | none => none
  | none => none

/-- Data-attribute strategy (source lines 255–269). -/
def tryDataLoc (html : String) : Option String :=
  firstSomeL ([pData1, pData2, pData3].map fun p => dataAttempt p html)

/-- The shared guard of the two "Where?" text strategies (source lines
287–293 and 300–306). -/
def whereGuard (location : String) : Bool :=
  jsLen location > 5 && jsLen location < 200 && !isUrl location &&
  hasUpper location && !isFilteredWord location

/-- "Where?" strategy over the visible text (one of the two patterns). -/
def tryWhereWith (p : Pat) (txt : String) : Option String :=
  match firstMatch p txt.data with
  | some m =>
    match mGrpS m 1 with
    | some g =>
      if !(g = "") then
        let location := trimJs g
        if whereGuard location then some location else none
      else none
    | none => none
  | none => none

/-- Address-shaped strategy over the visible text (source lines 310–318). -/
def tryAddrLoc (txt : String) : Option String :=
  match firstMatch pAddr txt.data with
  | some m =>
    match mGrpS m 1, mGrpS m 2, mGrpS m 3 with
    | some g1, some g2, some g3 =>
      if !(g1 = "") && !(g2 = "") && !(g3 = "") then
        let location := trimJs (g1 ++ ", " ++ g2 ++ ", " ++ g3)
        if jsLen location > 10 && jsLen location < 200 && !isUrl location then
          some location
        else none
      else none
    | _, _, _ => none
  | none => none

/-- One match of a `textContentPatterns` regex (source lines 331–360):
clean the full match, prefer the recombined groups, filter CSS artefacts,
then the plausibility guard. -/
def textMatchAttempt (html : List Char) (m : MRes) : Option String :=
  let full := mText html m
  if !full.isEmpty then
    let loc0 := trimJs (stripTags ⟨stripGtLt full⟩)
    let location :=
      match mGrpS m 1, mGrpS m 2, mGrpS m 3 with
      | some g1, some g2, some g3 =>
        if !(g1 = "") && !(g2 = "") && !(g3 = "") then
          g1 ++ ", " ++ g2 ++ ", " ++ g3
        else if !(g1 = "") && !(g2 = "") then g1 ++ ", " ++ g2
        else loc0
      | some g1, some g2, none =>
        if !(g1 = "") && !(g2 = "") then g1 ++ ", " ++ g2 else loc0
      | _, _, _ => loc0
    if containsSub location "class=" || containsSub location "header-" ||
        containsSub location "style-" || matchTest pLcDashFull location then
      none
    else if jsLen location > 5 && jsLen location < 200 && !isUrl location &&
        hasUpper location then
      some location
    else none
  else none

/-- Raw-markup span strategy (source lines 322–362). -/
def tryTextPats (html : String) : Option String :=
  firstSomeL ([pTextA, pTextB].map fun p =>
    firstSomeL ((matchAll p html.data).map (textMatchAttempt html.data)))

/-- One match of the labelled-keyword pattern (source lines 373–400). -/
def keywordMatchAttempt (m : MRes) : Option String :=
  match mGrpS m 1 with
  | some g =>
    if !(g = "") then
      let location := trimJs (replaceSub (replaceSub (stripTags g)
        "&nbsp;" " ") "&amp;" "&")
      if containsSub location "class=" || containsSub location "header-" ||
          containsSub location "style-" || containsSub location "container" ||
          containsSub location "cover-" || matchTest pLcDashFull location ||
          matchTest pLcDashPair location then
        none
      else if jsLen location > 5 && jsLen location < 200 && !isUrl location &&
          hasUpper location && !matchTest pLcDashWsEnd location then
        some location
      else none
    else none
  | none => none

/-- Labelled-keyword strategy (source lines 366–402). -/
def tryKeywordLoc (html : String) : Option String :=
  firstSomeL ((matchAll pKeywordLoc html.data).map keywordMatchAttempt)

/-- Source `extractLocationFromHtml` (lines 236–405): the strategies in
strict priority order, `null` when all are exhausted. -/
def extractLocationFromHtml (html : String) : Option String :=
  match tryMetaLoc html with
  | some l => some l
  | none =>
  match tryDataLoc html with
  | some l => some l
  | none =>
  match tryWhereWith pWhereU (textContentOf html) with
  | some l => some l
  | none =>
  match tryWhereWith pWhereP (textContentOf html) with
  | some l => some l
  | none =>
  match tryAddrLoc (textContentOf html) with
  | some l => some l
  | none =>
  match tryTextPats html with
  | some l => some l
  | none => tryKeywordLoc html

/-! ## The record type and the category classifier
(`detectCategories`, source lines 411–518) -/

/-- The `ScrapedEventData` record (source lines 6–16).  All fields are
optional in the TS interface; `suggestedCategories` is only ever assigned by
the orchestrator. -/
structure ScrapedEventData where
  name : Option String := none
  location : Option String := none
  start_date : Option String := none
  end_date : Option String := none
  price : Option ℚ := none
  description : Option String := none
  url : Option String := none
  category : Option String := none
  suggestedCategories : Option (List String) := none
deriving DecidableEq, Repr

/-- A word character for the JS `\b` boundary: `[A-Za-z0-9_]`. -/
def isWordCh (c : Char) : Bool :=
  c.isAlpha || c.isDigit || c = '_'

/-- Boundary-correct occurrence counting of `new RegExp("\\b" + kw + "\\b", "gi")`
over the (already lowercased) search text: non-overlapping left-to-right
matches of the literal keyword with word boundaries on both sides.  `prev`
is the character before the current position (`none` at the start); fuel is
the remaining length. -/
def countKwGo (kw : List Char) : Nat → Option Char → List Char → Nat
  | 0, _, _ => 0
  | _ + 1, _, [] => 0
  | fuel + 1, prev, c :: t =>
    let boundaryBefore :=
      match prev with
      | none => true
      | some pc => !isWordCh pc
    let here := boundaryBefore && isPre kw (c :: t) &&
      (match (c :: t).drop kw.length with
       | [] => true
       | nc :: _ => !isWordCh nc)
    if here && !kw.isEmpty then
      1 + countKwGo kw fuel (kw.getLast? ) ((c :: t).drop kw.length)
    else
      countKwGo kw fuel (some c) t

/-- Occurrences of one keyword in the search text. -/
def countKw (text kw : String) : Nat :=
  countKwGo kw.data (text.data.length + 1) none text.data

/-- Sum of the keyword occurrence counts of one topic (source lines
485–494). -/
def scoreOf (text : String) (kws : List String) : Nat :=
  (kws.map (countKw text)).sum

/-- The fixed category taxonomy (source lines 420–480), in declaration
order. -/
def categoryKeywords : List (String × List String) :=
  [("Technology",
    ["tech", "technology", "software", "programming", "coding", "developer",
     "dev", "javascript", "python", "react", "node", "web", "mobile", "app",
     "api", "ai", "artificial intelligence", "machine learning", "ml",
     "data science", "cybersecurity", "cloud", "devops", "blockchain",
     "crypto", "iot", "frontend", "backend", "fullstack", "full-stack",
     "agile", "scrum"]),
   ("Design",
    ["design", "ui", "ux", "user experience", "user interface",
     "graphic design", "visual design", "product design",
     "interaction design", "web design", "branding", "typography",
     "illustration", "animation", "figma", "sketch", "adobe", "photoshop",
     "illustrator", "service design", "content design"]),
   ("Business",
    ["business", "entrepreneurship", "startup", "leadership", "management",
     "strategy", "marketing", "sales", "finance", "investment",
     "venture capital", "consulting", "networking", "innovation", "growth",
     "scale"]),
   ("Data & Analytics",
    ["data", "analytics", "big data", "business intelligence", "bi", "sql",
     "database", "data engineering", "data analysis", "statistics",
     "metrics", "dashboard", "reporting", "etl"]),
   ("Product Management",
    ["product", "product management", "pm", "product owner", "roadmap",
     "feature", "requirements", "user story", "backlog", "sprint"]),
   ("Marketing",
    ["marketing", "digital marketing", "seo", "sem", "social media",
     "content", "brand", "advertising", "campaign", "email marketing",
     "ppc", "cmo", "cro"]),
   ("Sales",
    ["sales", "b2b", "b2c", "account management", "customer success", "crm",
     "revenue", "pipeline", "deal", "closing"]),
   ("HR & People",
    ["hr", "human resources", "recruiting", "talent", "people", "culture",
     "diversity", "inclusion", "team building", "employee"]),
   ("Finance",
    ["finance", "accounting", "cfo", "financial planning", "budget",
     "forecast", "tax", "audit", "compliance"]),
   ("Healthcare",
    ["healthcare", "health", "medical", "pharma", "biotech", "clinical",
     "patient", "hospital", "nursing"]),
   ("Education",
    ["education", "learning", "training", "workshop", "course", "university",
     "school", "student", "teacher", "academic"]),
   ("Conference",
    ["conference", "summit", "convention", "expo", "exhibition",
     "trade show", "meetup", "gathering", "forum"]),
   ("Workshop",
    ["workshop", "training", "bootcamp", "course", "class", "seminar",
     "tutorial", "hands-on"])]

/-- The lowercased concatenation of name, description and URL (source lines
413–417): `[name || "", description || "", url || ""].join(" ").toLowerCase()`. -/
def searchTextOf (ed : ScrapedEventData) : String :=
  toLowerStr ((ed.name.getD "") ++ " " ++ (ed.description.getD "") ++ " " ++
    (ed.url.getD ""))

/-- Stable descending insertion of an element into the sorted list of the
elements that followed it: elements with a strictly greater score stay
ahead, and the inserted (originally earlier) element precedes every element
of equal score.  This is the unique behaviour of a stable sort with the
comparator `(a, b) => b - a`, which the ECMAScript specification requires
`Array.prototype.sort` to honour. -/
def insDesc (x : String × Nat) : List (String × Nat) → List (String × Nat)
  | [] => [x]
  | y :: ys => if y.2 > x.2 then y :: insDesc x ys else x :: y :: ys

/-- Stable descending sort by score (model of
`.sort(([, a], [, b]) => b - a)`). -/
def sortDesc : List (String × Nat) → List (String × Nat)
  | [] => []
  | x :: xs => insDesc x (sortDesc xs)

/-- Every topic of the taxonomy paired with its score (the
`categoryScores` object of lines 483–498, whose insertion order is the
taxonomy declaration order, with the zero-scored topics still present). -/
def scoredListOf (ed : ScrapedEventData) : List (String × Nat) :=
  categoryKeywords.map (fun ck => (ck.1, scoreOf (searchTextOf ed) ck.2))

/-- The entries of `categoryScores` (only positive scores are inserted,
line 495–497), in declaration order. -/
def scoredOf (ed : ScrapedEventData) : List (String × Nat) :=
  (scoredListOf ed).filter (fun p => 0 < p.2)

/-- `Object.entries(categoryScores).sort(([, a], [, b]) => b - a).filter(...)`
(lines 501–503): the stable descending sort, then the source's redundant
positive filter. -/
def sortedOf (ed : ScrapedEventData) : List (String × Nat) :=
  (sortDesc (scoredOf ed)).filter (fun p => 0 < p.2)

/-- Source `detectCategories` (lines 411–518): score every topic, keep the
positive ones in declaration order, stably sort by descending score, and
return the top topic (or `null`) plus the up-to-five top topics. -/
def detectCategories (ed : ScrapedEventData) : Option String × List String :=
  match sortedOf ed with
  | [] => (none, [])
  | top :: _ => (some top.1, ((sortedOf ed).take 5).map (·.1))

/-! ## The structured-data extractor
(`parseSchemaOrgJsonLd`, source lines 22–134)

The per-block processing sits inside a `try`/`catch` that also covers the
runtime `TypeError` thrown by a property access on `null` (a `null` entry in
a schema array, or a `null` entry in an `offers` array); `Except Unit`
tracks that throw, which abandons the current script block. -/

/-- `/<script[^>]*type=["']application\/ld\+json["'][^>]*>(.*?)<\/script>/gis` -/
def pJsonLd : Pat := cseq [litsCI "<script", star nonGt, litsCI "type=",
  quoteCls, litsCI "application/ld+json", quoteCls, star nonGt, lits ">",
  .grp 1 (lazyStar anyCh), litsCI "</script>"]

/-- The contents (capture group 1) of every linked-data script block. -/
def scriptBlockContents (html : String) : List String :=
  (matchAll pJsonLd html.data).filterMap (fun m => mGrpS m 1)

/-- `Array.isArray(jsonData) ? jsonData : [jsonData]` (source line 33). -/
def toSchemas (j : Json) : List Json :=
  match j with
  | .arr xs => xs
  | _ => [j]

/-- The `@type` test of source lines 37–39: the bare token `"Event"`, the
schema URI, or membership of `"Event"` in an array-typed `@type` (strict
equality, as `Array.prototype.includes` uses). -/
def typeIsEvent (t : Option Json) : Bool :=
  match t with
  | some (.str s) => s = "Event" || s = "https://schema.org/Event"
  | some (.arr xs) =>
    xs.any (fun j => match j with | .str s => s = "Event" | _ => false)
  | _ => false

/-- Address-part extraction (the `if (addr.X) parts.push(addr.X)` lines
61–65 and 73–77): a truthy field contributes its string value (integer
numbers are coerced as JS string interpolation would; other truthy
non-string values are not modelled and contribute nothing). -/
def addrParts (addr : Json) : List String :=
  ["streetAddress", "addressLocality", "addressRegion", "postalCode",
   "addressCountry"].filterMap fun k =>
    match jGet addr k with
    | some v => if truthy v then jsToStr v else none
    | none => none

/-- `parts.filter(Boolean).join(", ")` (source line 66/78). -/
def joinParts (parts : List String) : String :=
  String.intercalate ", " (parts.filter (fun s => !(s = "")))

/-- Location extraction of source lines 49–80: a string is used as-is; an
object with a truthy `name` composes venue name and address parts; an
object with only an address composes the address parts. -/
def extractLocation (loc : Json) : Option String :=
  match loc with
  | .str s => some s
  | _ =>
    match jGet loc "name" with
    | some nm =>
      if truthy nm then
        let locationName := jFirstStr nm
        match jGet loc "address" with
        | some addr =>
          if truthy addr then
            some (joinParts (locationName.toList ++ addrParts addr))
          else locationName
        | none => locationName
      else
        match jGet loc "address" with
        | some addr =>
          if truthy addr then some (joinParts (addrParts addr)) else none
        | none => none
    | none =>
      match jGet loc "address" with
      | some addr =>
        if truthy addr then some (joinParts (addrParts addr)) else none
      | none => none

/-- The `offers` loop of source lines 95–106: first offer whose truthy
`price` field parses; a `null` offer entry throws (`offer.price` on
`null`).  A numeric price is passed to `parsePrice` as a number, a string
as a string; truthy array or object prices (whose `toString` coercion
inside `parsePrice` the claims never exercise) are modelled as parse
failures. -/
def extractOffersPrice : List Json → Except Unit (Option ℚ)
  | [] => .ok none
  | offer :: rest =>
    match offer with
    | .null => .error ()
    | _ =>
      match jGet offer "price" with
      | some p =>
        if truthy p then
          match (match p with
                 | .num q => some q
                 | .str s => parsePrice (.str s)
                 | _ => none) with
          | some v => .ok (some v)
          | none => extractOffersPrice rest
        else extractOffersPrice rest
      | none => extractOffersPrice rest

/-- A truthy date field is parsed when it is a string (the JSON-LD case);
non-string truthy values (whose `new Date` coercions the claims never
exercise) are modelled as parse failures. -/
def extractDateField (j : Json) : Option String :=
  match j with
  | .str s => parseDate s
  | _ => none

/-- Field-by-field extraction from one Event-typed entity (source lines
41–120).  The only throw point inside the extraction is the `offers`
loop. -/
def extractEvent (schema : Json) : Except Unit ScrapedEventData :=
  match
    (match jGet schema "offers" with
     | some offers =>
       if truthy offers then extractOffersPrice (toSchemas offers)
       else .ok none
     | none => .ok none) with
  | .error e => .error e
  | .ok priceOpt =>
    .ok
      { name :=
          match jGet schema "name" with
          | some nm => if truthy nm then jFirstStr nm else none
          | none => none
        location :=
          match jGet schema "location" with
          | some loc => if truthy loc then extractLocation loc else none
          | none => none
        start_date :=
          match jGet schema "startDate" with
          | some sd => if truthy sd then extractDateField sd else none
          | none => none
        end_date :=
          match jGet schema "endDate" with
          | some ed => if truthy ed then extractDateField ed else none
          | none => none
        price := priceOpt
        description :=
          match jGet schema "description" with
          | some d => if truthy d then jFirstStr d else none
          | none => none
        url :=
          match jGet schema "url" with
          | some u => if truthy u then jFirstStr u else none
          | none => none }

/-- The schema loop of source lines 35–122: a `null` entry throws
(`schema["@type"]` on `null`); the first Event-typed entry is extracted and
returned, name or no name. -/
def scanSchemas : List Json → Except Unit (Option ScrapedEventData)
  | [] => .ok none
  | j :: rest =>
    match j with
    | .null => .error ()
    | _ =>
      if typeIsEvent (jGet j "@type") then
        match extractEvent j with
        | .ok ev => .ok (some ev)
        | .error e => .error e
      else scanSchemas rest

/-- One script block: a JSON parse failure or a thrown `TypeError` is caught
and the block is skipped (source lines 123–126). -/
def processBlock (content : String) : Option ScrapedEventData :=
  match jsonParse content with
  | none => none
  | some v =>
    match scanSchemas (toSchemas v) with
    | .error _ => none
    | .ok r => r

/-- Source `parseSchemaOrgJsonLd` (lines 22–134): first block that yields an
Event record; `null` otherwise. -/
def parseSchemaOrgJsonLd (html : String) : Option ScrapedEventData :=
  firstSomeL ((scriptBlockContents html).map processBlock)

/-! ## The heuristic fallback (`parseHtmlFallback`, source lines 524–574)
and the orchestrator (`scrapeEventData`, source lines 580–637) -/

/-- `/<title[^>]*>(.*?)<\/title>/is` -/
def pTitle : Pat := cseq [litsCI "<title", star nonGt, lits ">",
  .grp 1 (lazyStar anyCh), litsCI "</title>"]

/-- `[\/\-\.]` (a date separator). -/
def dateSep : Pat := .cls false [('/', '/'), ('-', '-'), ('.', '.')]

/-- `/(?:date|when|event date)[\s:]*([\d]{1,2}[\/\-\.][\d]{1,2}[\/\-\.][\d]{4})/gi` -/
def pDate1 : Pat := cseq [
  calt [litsCI "date", litsCI "when", litsCI "event date"],
  star wsColonCls,
  .grp 1 (cseq [.rep 1 (some 2) true digitCls, dateSep,
    .rep 1 (some 2) true digitCls, dateSep, .rep 4 (some 4) true digitCls])]

/-- `/([\d]{4}[\/\-\.][\d]{1,2}[\/\-\.][\d]{1,2})/g` -/
def pDate2 : Pat := .grp 1 (cseq [.rep 4 (some 4) true digitCls, dateSep,
  .rep 1 (some 2) true digitCls, dateSep, .rep 1 (some 2) true digitCls])

/-- `[€$£]` -/
def curSym : Pat := .cls false [('€', '€'), ('$', '$'), ('£', '£')]

/-- `[\d,]` -/
def digitCommaCls : Pat := .cls false [('0', '9'), (',', ',')]

/-- `/(?:price|cost|ticket|fee)[\s:]*([€$£]?\s*[\d,]+\.?\d*)/gi` -/
def pPrice1 : Pat := cseq [
  calt [litsCI "price", litsCI "cost", litsCI "ticket", litsCI "fee"],
  star wsColonCls,
  .grp 1 (cseq [popt curSym, star wsCls, plus digitCommaCls,
    popt (lits "."), star digitCls])]

/-- `/([€$£]?\s*[\d,]+\.?\d*)\s*(?:sek|kr|eur|usd|gbp)/gi` -/
def pPrice2 : Pat := cseq [
  .grp 1 (cseq [popt curSym, star wsCls, plus digitCommaCls,
    popt (lits "."), star digitCls]),
  star wsCls,
  calt [litsCI "sek", litsCI "kr", litsCI "eur", litsCI "usd", litsCI "gbp"]]

/-- The date loop of source lines 534–548: `matchAll` per pattern; if there
is any match, the first match's capture is offered to `parseDate`, and only
a successful parse stops the loop. -/
def fallbackDate (html : String) : Option String :=
  firstSomeL ([pDate1, pDate2].map fun p =>
    match (matchAll p html.data).head? with
    | some m =>
      match mGrpS m 1 with
      | some g => parseDate g
      | none => none
    | none => none)

/-- The price loop of source lines 556–571.  `html.match(pattern)` with a
global regex returns the array of full-match texts without capture groups,
so `match[1]` is the **second full match** (or `undefined`, on which
`parsePrice` returns `null`); only a successful parse stops the loop. -/
def fallbackPrice (html : String) : Option ℚ :=
  firstSomeL ([pPrice1, pPrice2].map fun p =>
    let ms := matchAll p html.data
    match ms with
    | [] => none
    | _ :: rest =>
      match rest.head? with
      | some m2 => parsePrice (.str ⟨mText html.data m2⟩)
      | none => none)

/-- Source `parseHtmlFallback` (lines 524–574): best-effort record with the
source URL, the tag-stripped trimmed title, the first parseable labelled or
bare date, the heuristic location, and the first parseable price. -/
def parseHtmlFallback (html url : String) : ScrapedEventData :=
  { url := some url
    name :=
      match firstMatch pTitle html.data with
      | some m =>
        match mGrpS m 1 with
        | some g => some (trimJs (stripTags g))
        | none => none
      | none => none
    start_date := fallbackDate html
    location := extractLocationFromHtml html
    price := fallbackPrice html }

/-- The category attachment of the orchestrator (lines 619–622 and
628–631): `category = primary || undefined`, `suggestedCategories =
suggestions`. -/
def attachCategories (ed : ScrapedEventData) : ScrapedEventData :=
  { ed with category := (detectCategories ed).1,
            suggestedCategories := some (detectCategories ed).2 }

/-- Source `scrapeEventData` (lines 580–637) after a successful fetch, on
the fetched body `html` and the requested `url`.  Structured data with a
truthy name wins: its URL is backfilled, its location re-extracted or
cleared when missing or URL-like, and categories are attached; otherwise
the heuristic fallback runs (classified the same way).  The pure
post-fetch processing cannot throw. -/
def scrapeEventData (html url : String) : ScrapedEventData :=
  match parseSchemaOrgJsonLd html with
  | some schemaData =>
    if strTruthy schemaData.name then
      let sd1 :=
        if strTruthy schemaData.url then schemaData
        else { schemaData with url := some url }
      let sd2 :=
        if needsRelocation sd1.location then
          match extractLocationFromHtml html with
          | some htmlLocation => { sd1 with location := some htmlLocation }
          | none =>
            if locLooksUrlO sd1.location then { sd1 with location := none }
            else sd1
        else sd1
      attachCategories sd2
    else attachCategories (parseHtmlFallback html url)
  | none => attachCategories (parseHtmlFallback html url)

/-! ## The HTTP endpoint (`POST`, `src/app/api/scrape-event/route.ts`) -/

/-- A JSON body of an HTTP response of the route: either the scraped data
or an error object. -/
inductive RouteBody where
  | ok : ScrapedEventData → RouteBody
  | err : String → RouteBody
deriving DecidableEq, Repr

/-- An HTTP response of the route. -/
structure RouteResponse where
  status : Nat
  body : RouteBody
deriving DecidableEq, Repr

/-- Modelled from the spec (§6, "if the string does not parse as a
well-formed URL"): success of the WHATWG `new URL(url)` constructor.  A
valid scheme (`[A-Za-z][A-Za-z0-9+.-]*`) followed by `:` is required; the
special schemes additionally need a nonempty host without spaces after
optional slashes; other schemes accept any opaque remainder. -/
def jsUrlParses (s : String) : Bool :=
  let scheme := s.data.takeWhile (fun c => !(c = ':'))
  let rest := s.data.dropWhile (fun c => !(c = ':'))
  match rest with
  | ':' :: afterColon =>
    let schemeOk :=
      match scheme with
      | [] => false
      | c :: cs =>
        c.isAlpha &&
        cs.all (fun x => x.isAlpha || x.isDigit || x = '+' || x = '.' || x = '-')
    let special :=
      ["http", "https", "ws", "wss", "ftp", "file"].contains
        (toLowerStr ⟨scheme⟩)
    if !schemeOk then false
    else if special && !(toLowerStr ⟨scheme⟩ = "file") then
      let afterSlashes := afterColon.dropWhile (fun c => c = '/')
      let host := afterSlashes.takeWhile
        (fun c => !(c = '/' || c = '?' || c = '#'))
      !host.isEmpty && host.all (fun c => !(c = ' '))
    else true
  | _ => false

/-- The wrapped failure of `scrapeEventData` (source line 635): a fetch
failure propagates as a single error whose message carries the original
failure's message. -/
def scrapeEventDataE (fetched : Except String String) (url : String) :
    Except String ScrapedEventData :=
  match fetched with
  | .error msg => .error ("Failed to scrape event data: " ++ msg)
  | .ok html => .ok (scrapeEventData html url)

/-- Modelled from the runtime (the §6 propagated failure message): the
message of the `TypeError` thrown by destructuring `url` from a `null`
request body, as caught by the route's `catch`. -/
def destructureNullMsg : String :=
  "Cannot destructure property 'url' of 'body' as it is null."

/-- The route's handling after the destructuring succeeded (route lines
9–29): 400 for a missing or non-string or empty `url`, 400 for a malformed
URL, 200 with the scraped record, 500 with the propagated message on a
scrape failure. -/
def POSTgo (body : Json) (fetched : Except String String) : RouteResponse :=
  match jGet body "url" with
  | some (.str u) =>
    if u = "" then ⟨400, .err "URL is required"⟩
    else if !jsUrlParses u then ⟨400, .err "Invalid URL format"⟩
    else
      match scrapeEventDataE fetched u with
      | .ok d => ⟨200, .ok d⟩
      | .error msg => ⟨500, .err msg⟩
  | some _ => ⟨400, .err "URL is required"⟩
  | none => ⟨400, .err "URL is required"⟩

/-- Source `POST` (route lines 4–40) on a parsed JSON request body and a
fetch outcome for the requested URL.  A `null` body throws a `TypeError`
at the destructuring `const ... = body` (route line 7), which the `catch`
turns into a 500 response carrying the error's message; every other JSON
body destructures (primitives included) and proceeds. -/
def POST (body : Json) (fetched : Except String String) : RouteResponse :=
  match body with
  | .null => ⟨500, .err destructureNullMsg⟩
  | _ => POSTgo body fetched

/-! ## Helper lemmas -/

/-- A property holding of every possible element of a list of options holds
of a `firstSomeL` result. -/
theorem firstSomeL_forall {α : Type} {P : α → Prop} :
    ∀ l : List (Option α), (∀ o ∈ l, ∀ a, o = some a → P a) →
      ∀ a, firstSomeL l = some a → P a := by
  intro l
  induction l with
  | nil => intro _ a h; simp [firstSomeL] at h
  | cons o t ih =>
    intro hall a h
    cases o with
    | some b =>
      simp only [firstSomeL] at h
      cases h
      exact hall (some a) (by simp) a rfl
    | none =>
      simp only [firstSomeL] at h
      exact ih (fun o ho => hall o (by simp [ho])) a h

/-- A present member of the list makes `firstSomeL` present. -/
theorem firstSomeL_isSome_of_mem {α : Type} :
    ∀ l : List (Option α), ∀ a : α, some a ∈ l → (firstSomeL l).isSome := by
  intro l
  induction l with
  | nil => intro a h; simp at h
  | cons o t ih =>
    intro a h
    cases o with
    | some b => simp [firstSomeL]
    | none =>
      simp only [List.mem_cons] at h
      rcases h with h | h
      · exact absurd h (by simp)
      · simpa [firstSomeL] using ih a h

/-- A `firstSomeL` result is a member. -/
theorem firstSomeL_mem {α : Type} :
    ∀ l : List (Option α), ∀ a : α, firstSomeL l = some a → some a ∈ l := by
  intro l
  induction l with
  | nil => intro a h; simp [firstSomeL] at h
  | cons o t ih =>
    intro a h
    cases o with
    | some b => simp only [firstSomeL] at h; simp [h]
    | none => simp only [firstSomeL] at h; simp [ih a h]

/-- The plausibility bundle every location-extractor strategy checks:
length strictly between 3 and 200 and not URL-like (the uppercase test is
**not** part of this shared bundle; see claim 7). -/
def locOk (l : String) : Prop :=
  3 < jsLen l ∧ jsLen l < 200 ∧ isUrl l = false

theorem metaAttempt_guard (p : Pat) (html : String) :
    ∀ l, metaAttempt p html = some l → locOk l := by
  intro l ha
  unfold metaAttempt at ha
  repeat' split at ha
  all_goals
    simp only [ite_eq_iff, eq_ite_iff, Option.some.injEq, reduceCtorEq,
      false_and, and_false, false_or, or_false, Bool.and_eq_true,
      Bool.not_eq_true', decide_eq_true_eq] at ha
  obtain ⟨⟨⟨hu, h1⟩, h2⟩, rfl⟩ := ha
  exact ⟨h1, h2, hu⟩
theorem dataAttempt_guard (p : Pat) (html : String) :
    ∀ l, dataAttempt p html = some l → locOk l := by
  intro l ha
  unfold dataAttempt at ha
  repeat' split at ha
  all_goals
    simp only [ite_eq_iff, eq_ite_iff, Option.some.injEq, reduceCtorEq,
      false_and, and_false, false_or, or_false, Bool.and_eq_true,
      Bool.not_eq_true', decide_eq_true_eq] at ha
  obtain ⟨⟨⟨h1, h2⟩, hu⟩, rfl⟩ := ha
  exact ⟨h1, h2, hu⟩

theorem tryWhereWith_guard (p : Pat) (txt : String) :
    ∀ l, tryWhereWith p txt = some l → locOk l := by
  intro l ha
  unfold tryWhereWith at ha
  repeat' split at ha
  all_goals
    simp only [whereGuard, ite_eq_iff, eq_ite_iff, Option.some.injEq,
      reduceCtorEq, false_and, and_false, false_or, or_false,
      Bool.and_eq_true, Bool.not_eq_true', decide_eq_true_eq] at ha
  obtain ⟨⟨⟨⟨⟨h1, h2⟩, hu⟩, hup⟩, hf⟩, rfl⟩ := ha
  exact ⟨by omega, h2, hu⟩

theorem tryAddrLoc_guard (txt : String) :
    ∀ l, tryAddrLoc txt = some l → locOk l := by
  intro l ha
  unfold tryAddrLoc at ha
  repeat' split at ha
  all_goals
    simp only [ite_eq_iff, eq_ite_iff, Option.some.injEq, reduceCtorEq,
      false_and, and_false, false_or, or_false, Bool.and_eq_true,
      Bool.not_eq_true', decide_eq_true_eq] at ha
  obtain ⟨⟨⟨h1, h2⟩, hu⟩, rfl⟩ := ha
  exact ⟨by omega, h2, hu⟩

theorem textMatchAttempt_guard (html : List Char) (m : MRes) :
    ∀ l, textMatchAttempt html m = some l → locOk l := by
  intro l ha
  unfold textMatchAttempt at ha
  repeat' split at ha
  all_goals
    simp only [ite_eq_iff, eq_ite_iff, Option.some.injEq, reduceCtorEq,
      false_and, and_false, false_or, or_false, Bool.and_eq_true,
      Bool.not_eq_true', decide_eq_true_eq] at ha
  all_goals obtain ⟨hfull, hcss, ⟨⟨⟨h1, h2⟩, hu⟩, hup⟩, rfl⟩ := ha
  all_goals exact ⟨by omega, h2, hu⟩

theorem keywordMatchAttempt_guard (m : MRes) :
    ∀ l, keywordMatchAttempt m = some l → locOk l := by
  intro l ha
  unfold keywordMatchAttempt at ha
  repeat' split at ha
  all_goals
    simp only [ite_eq_iff, eq_ite_iff, Option.some.injEq, reduceCtorEq,
      false_and, and_false, false_or, or_false, Bool.and_eq_true,
      Bool.not_eq_true', decide_eq_true_eq] at ha
  obtain ⟨hcss, ⟨⟨⟨⟨h1, h2⟩, hu⟩, hup⟩, hlc⟩, rfl⟩ := ha
  exact ⟨by omega, h2, hu⟩
theorem tryMetaLoc_guard (html : String) :
    ∀ l, tryMetaLoc html = some l → locOk l := by
  intro l h
  refine firstSomeL_forall _ ?_ l h
  intro o ho a ha
  simp only [List.mem_map] at ho
  obtain ⟨p, _, rfl⟩ := ho
  exact metaAttempt_guard p html a ha

theorem tryDataLoc_guard (html : String) :
    ∀ l, tryDataLoc html = some l → locOk l := by
  intro l h
  refine firstSomeL_forall _ ?_ l h
  intro o ho a ha
  simp only [List.mem_map] at ho
  obtain ⟨p, _, rfl⟩ := ho
  exact dataAttempt_guard p html a ha

theorem tryTextPats_guard (html : String) :
    ∀ l, tryTextPats html = some l → locOk l := by
  intro l h
  refine firstSomeL_forall _ ?_ l h
  intro o ho a ha
  simp only [List.mem_map] at ho
  obtain ⟨p, _, rfl⟩ := ho
  refine firstSomeL_forall _ ?_ a ha
  intro o2 ho2 b hb
  simp only [List.mem_map] at ho2
  obtain ⟨m, _, rfl⟩ := ho2
  exact textMatchAttempt_guard html.data m b hb

theorem tryKeywordLoc_guard (html : String) :
    ∀ l, tryKeywordLoc html = some l → locOk l := by
  intro l h
  refine firstSomeL_forall _ ?_ l h
  intro o ho a ha
  simp only [List.mem_map] at ho
  obtain ⟨m, _, rfl⟩ := ho
  exact keywordMatchAttempt_guard m a ha

/-- Every non-null result of the heuristic location extractor satisfies the
shared plausibility bundle. -/
theorem extractLocation_guard (html : String) :
    ∀ l, extractLocationFromHtml html = some l → locOk l := by
  intro l h
  unfold extractLocationFromHtml at h
  cases h1 : tryMetaLoc html with
  | some x => rw [h1] at h; cases h; exact tryMetaLoc_guard html _ h1
  | none =>
  rw [h1] at h
  cases h2 : tryDataLoc html with
  | some x => rw [h2] at h; cases h; exact tryDataLoc_guard html _ h2
  | none =>
  rw [h2] at h
  cases h3 : tryWhereWith pWhereU (textContentOf html) with
  | some x => rw [h3] at h; cases h; exact tryWhereWith_guard _ _ _ h3
  | none =>
  rw [h3] at h
  cases h4 : tryWhereWith pWhereP (textContentOf html) with
  | some x => rw [h4] at h; cases h; exact tryWhereWith_guard _ _ _ h4
  | none =>
  rw [h4] at h
  cases h5 : tryAddrLoc (textContentOf html) with
  | some x => rw [h5] at h; cases h; exact tryAddrLoc_guard _ _ h5
  | none =>
  rw [h5] at h
  cases h6 : tryTextPats html with
  | some x => rw [h6] at h; cases h; exact tryTextPats_guard html _ h6
  | none =>
  rw [h6] at h
  exact tryKeywordLoc_guard html _ h

/-- `isUrl` subsumes the http-scheme test. -/
theorem isUrl_false_not_http (l : String) :
    isUrl l = false → startsHttpCI l = false := by
  unfold isUrl
  intro h
  simp only [Bool.or_eq_false_iff] at h
  exact h.1.1.1.1.1

/-- The orchestrator's URL-likeness test subsumes the http-scheme test. -/
theorem locVal_false_not_http (l : String) :
    locValLooksUrl l = false → startsHttpCI l = false := by
  unfold locValLooksUrl
  intro h
  simp only [Bool.or_eq_false_iff] at h
  exact h.2

/-- A URL-like present location triggers re-extraction. -/
theorem needsRelocation_of_looks (o : Option String) :
    locLooksUrlO o = true → needsRelocation o = true := by
  unfold locLooksUrlO needsRelocation
  intro h
  simp only [Bool.and_eq_true] at h
  simp [h.2]

/-- `attachCategories` leaves the location field unchanged. -/
theorem attachCategories_location (ed : ScrapedEventData) :
    (attachCategories ed).location = ed.location := by
  unfold attachCategories
  simp

/-- `attachCategories` leaves the url field unchanged. -/
theorem attachCategories_url (ed : ScrapedEventData) :
    (attachCategories ed).url = ed.url := by
  unfold attachCategories
  simp

/-- The heuristic fallback path of `scrapeEventData` (taken when structured
extraction yields no truthy name). -/
theorem scrapeEventData_fallback (html url : String)
    (h : ∀ sd, parseSchemaOrgJsonLd html = some sd → strTruthy sd.name = false) :
    scrapeEventData html url = attachCategories (parseHtmlFallback html url) := by
  unfold scrapeEventData
  cases hp : parseSchemaOrgJsonLd html with
  | none => rfl
  | some sd => simp [h sd hp]

/-- The structured path of `scrapeEventData`, fully case-analysed on the
location handling. -/
theorem scrapeEventData_structured (html url : String) (sd : ScrapedEventData)
    (hp : parseSchemaOrgJsonLd html = some sd)
    (hname : strTruthy sd.name = true) :
    (scrapeEventData html url).location =
      (if needsRelocation sd.location then
        match extractLocationFromHtml html with
        | some htmlLocation => some htmlLocation
        | none => if locLooksUrlO sd.location then none else sd.location
       else sd.location) := by
  unfold scrapeEventData
  rw [hp]
  simp only [hname, if_true]
  rw [attachCategories_location]
  repeat' split
  all_goals simp_all

/-- Claim C1: on every fetched page where structured extraction succeeds
with a (truthy) name and the extracted location is missing or URL-like, the
orchestrator re-runs the heuristic location extractor over the same markup
and its result replaces — or, when the extractor also fails, clears — the
location; and the location of every returned record, whatever the path,
never parses as a URL (read as an absolute `http(s)://` URL, the form of
the claim's example). -/
theorem claim1_location_reconciliation (html url : String) :
    (∀ sd, parseSchemaOrgJsonLd html = some sd → strTruthy sd.name = true →
      sd.location = none ∨ locLooksUrlO sd.location = true →
      (scrapeEventData html url).location = extractLocationFromHtml html)
    ∧ (∀ l, (scrapeEventData html url).location = some l →
        startsHttpCI l = false) := by
  constructor
  · intro sd hp hname hloc
    rw [scrapeEventData_structured html url sd hp hname]
    have hneed : needsRelocation sd.location = true := by
      rcases hloc with h | h
      · rw [h]; rfl
      · exact needsRelocation_of_looks _ h
    rw [hneed]
    simp only [if_true]
    cases hx : extractLocationFromHtml html with
    | some l => rfl
    | none =>
      simp only
      rcases hloc with h | h
      · rw [h]; simp [locLooksUrlO, strTruthy]
      · rw [h]; simp
  · intro l hl
    cases hp : parseSchemaOrgJsonLd html with
    | none =>
      have hfb : scrapeEventData html url =
          attachCategories (parseHtmlFallback html url) := by
        unfold scrapeEventData; rw [hp]
      rw [hfb, attachCategories_location] at hl
      have hx : extractLocationFromHtml html = some l := hl
      exact isUrl_false_not_http l (extractLocation_guard html l hx).2.2
    | some sd =>
      cases hname : strTruthy sd.name with
      | false =>
        have hfb : scrapeEventData html url =
            attachCategories (parseHtmlFallback html url) := by
          unfold scrapeEventData; rw [hp]; simp [hname]
        rw [hfb, attachCategories_location] at hl
        have hx : extractLocationFromHtml html = some l := hl
        exact isUrl_false_not_http l (extractLocation_guard html l hx).2.2
      | true =>
        rw [scrapeEventData_structured html url sd hp hname] at hl
        by_cases hneed : needsRelocation sd.location = true
        · rw [hneed] at hl
          simp only [if_true] at hl
          cases hx : extractLocationFromHtml html with
          | some l2 =>
            rw [hx] at hl
            cases hl
            exact isUrl_false_not_http l (extractLocation_guard html l hx).2.2
          | none =>
            rw [hx] at hl
            simp only at hl
            by_cases hlooks : locLooksUrlO sd.location = true
            · rw [if_pos hlooks] at hl; cases hl
            · rw [if_neg hlooks] at hl
              -- the location was kept although re-extraction failed: it is
              -- either empty or not URL-like
              by_cases hstr : strTruthy sd.location = true
              · have hval : locValLooksUrl (sd.location.getD "") = false := by
                  unfold locLooksUrlO at hlooks
                  simp only [Bool.and_eq_true, not_and] at hlooks
                  cases hv : locValLooksUrl (sd.location.getD "") with
                  | false => rfl
                  | true => exact absurd hv (by simp [hlooks hstr])
                have hsl : sd.location = some l := hl
                have hld : l = sd.location.getD "" := by rw [hsl]; rfl
                rw [hld]
                exact locVal_false_not_http _ hval
              · have hempty : l = "" := by
                  cases hsl : sd.location with
                  | none => rw [hsl] at hl; cases hl
                  | some s =>
                    rw [hsl] at hl
                    cases hl
                    simp only [hsl, strTruthy, Bool.not_eq_true,
                      Bool.not_eq_false] at hstr
                    simpa using hstr
                rw [hempty]
                rfl
        · simp only [Bool.not_eq_true] at hneed
          rw [hneed] at hl
          simp only [Bool.false_eq_true, if_false] at hl
          have hstr : strTruthy sd.location = true := by
            unfold needsRelocation at hneed
            simp only [Bool.or_eq_false_iff] at hneed
            simpa using hneed.1
          have hval : locValLooksUrl (sd.location.getD "") = false := by
            unfold needsRelocation at hneed
            simp only [Bool.or_eq_false_iff] at hneed
            exact hneed.2
          have hld : l = sd.location.getD "" := by
            cases hsl : sd.location with
            | none => rw [hsl] at hl; cases hl
            | some s => rw [hsl] at hl; cases hl; rfl
          rw [hld]
          exact locVal_false_not_http _ hval

set_option maxRecDepth 1000000

/-- A page whose structured Event location is the URL of the claim's example
and which also carries a meta locality tag. -/
def c1Html : String :=
  "<script type=\"application/ld+json\">\x7b\"@type\":\"Event\",\"name\":\"A\",\"location\":\"https://example.com\"\x7d</script><meta property=\"og:locality\" content=\"Stockholm City\">"

/-- Witness for claim C1: on `c1Html` the structured location is the string
`"https://example.com"`, and the returned location is exactly the heuristic
extractor's result over the same markup. -/
theorem claim1_witness :
    (scrapeEventData c1Html "https://req.test/").location =
      extractLocationFromHtml c1Html :=
  (claim1_location_reconciliation c1Html "https://req.test/").1
    ⟨some "A", some "https://example.com", none, none, none, none, none,
      none, none⟩
    (by rfl) (by rfl) (.inr (by rfl))

/-- Claim C7 (amended): every non-null result of the heuristic location
extractor has length strictly between 3 and 200 and is not a URL.  (The
claim's further condition — that the result contains an uppercase letter —
does not hold for the meta-tag and data-attribute strategies, whose filters
omit the uppercase test; see the counterexample.) -/
theorem claim7_extractor_plausibility (html l : String)
    (h : extractLocationFromHtml html = some l) :
    3 < jsLen l ∧ jsLen l < 200 ∧ isUrl l = false :=
  extractLocation_guard html l h

/-- A page whose only location evidence is an all-lowercase meta locality. -/
def c7Html : String :=
  "<meta property=\"og:locality\" content=\"stockholm\">"

/-- Claim C7 counterexample: the meta-tag strategy returns `"stockholm"`,
which contains no uppercase letter, refuting the claim that every non-null
extractor result contains at least one uppercase letter. -/
theorem claim7_counterexample :
    extractLocationFromHtml c7Html = some "stockholm" ∧
      hasUpper "stockholm" = false := by
  exact ⟨by rfl, by rfl⟩

/-- Witness for claim C7's amended theorem at the concrete page `c7Html`. -/
theorem claim7_witness :
    3 < jsLen "stockholm" ∧ jsLen "stockholm" < 200 ∧
      isUrl "stockholm" = false :=
  claim7_extractor_plausibility c7Html "stockholm" (by rfl)

/-- The claim's end-to-end fallback page. -/
def techHtml : String := "<html><title>Tech Summit 2025</title></html>"

/-- The requested URL of the fallback example. -/
def techUrl : String := "https://example.test/events"

/-- Claim C3: whenever structured extraction fails (no record, or no truthy
name), `scrapeEventData` returns the classified heuristic fallback record —
a total computation, so nothing is thrown; concretely, a page with no
linked-data block and title `Tech Summit 2025` yields exactly that name
with location, dates, price and description absent. -/
theorem claim3_fallback_path :
    (∀ html url, (∀ sd, parseSchemaOrgJsonLd html = some sd →
        strTruthy sd.name = false) →
      scrapeEventData html url = attachCategories (parseHtmlFallback html url))
    ∧ scrapeEventData techHtml techUrl =
      { name := some "Tech Summit 2025", location := none, start_date := none,
        end_date := none, price := none, description := none,
        url := some techUrl, category := some "Technology",
        suggestedCategories := some ["Technology", "Conference"] } := by
  constructor
  · exact scrapeEventData_fallback
  · rfl

/-- Witness for claim C3: the fallback equation applied at the concrete
no-linked-data page. -/
theorem claim3_witness :
    scrapeEventData techHtml techUrl =
      attachCategories (parseHtmlFallback techHtml techUrl) :=
  claim3_fallback_path.1 techHtml techUrl (by
    intro sd h
    rw [show parseSchemaOrgJsonLd techHtml = none from rfl] at h
    exact Option.noConfusion h)

/-- Claim C10: on every successful call the returned record's url field is
set: the structured record's (truthy) canonical url when one was extracted,
the input URL otherwise — on both the structured (backfill) and fallback
(set at construction) paths. -/
theorem claim10_url_always_set (html url : String) :
    (scrapeEventData html url).url =
      some (match parseSchemaOrgJsonLd html with
            | some sd =>
              if strTruthy sd.name then
                (if strTruthy sd.url then sd.url.getD url else url)
              else url
            | none => url) := by
  cases hp : parseSchemaOrgJsonLd html with
  | none =>
    rw [scrapeEventData_fallback html url (fun sd h => by
      rw [hp] at h; exact Option.noConfusion h)]
    rw [attachCategories_url]
    rfl
  | some sd =>
    cases hname : strTruthy sd.name with
    | false =>
      rw [scrapeEventData_fallback html url (fun sd2 h => by
        rw [hp] at h; cases h; exact hname)]
      rw [attachCategories_url]
      simp [hname]
      rfl
    | true =>
      unfold scrapeEventData
      rw [hp]
      simp only [hname, if_true]
      rw [attachCategories_url]
      cases hurl : sd.url with
      | none =>
        simp only [hurl, strTruthy, Bool.false_eq_true, if_false]
        repeat' split
        all_goals simp_all
      | some u =>
        cases hu : strTruthy (some u) with
        | false =>
          simp only [hurl, hu, Bool.false_eq_true, if_false]
          repeat' split
          all_goals simp_all
        | true =>
          simp only [hurl, hu, if_true, Option.getD_some]
          repeat' split
          all_goals simp_all

/-- A body with a present `url` field is not the `null` body. -/
theorem jGet_some_nonnull (body : Json) (k : String) (v : Json)
    (hg : jGet body k = some v) : ¬(body = .null) := by
  intro hb
  subst hb
  simp [jGet] at hg

/-- On a non-`null` body the route proceeds past the destructuring. -/
theorem POST_nonnull (body : Json) (fetched : Except String String)
    (h : ¬(body = .null)) : POST body fetched = POSTgo body fetched := by
  cases body with
  | null => exact absurd rfl h
  | bool b => rfl
  | num q => rfl
  | str s => rfl
  | arr xs => rfl
  | obj fs => rfl

/-- Claim C8 (amended): the endpoint's contract over a parsed request body
and a fetch outcome — 500 (a returned response) with the destructuring
`TypeError` message when the body itself is `null`; otherwise 400
`URL is required` when the url field is missing, not a string, **or the
empty string**; 400 `Invalid URL format` when a nonempty string does not
parse as a URL; 200 with the scraped record on success; 500 with the
propagated wrapped failure message on a scrape failure. -/
theorem claim8_route_contract (body : Json) (fetched : Except String String) :
    (body = .null →
      POST body fetched = ⟨500, .err destructureNullMsg⟩)
    ∧ (¬(body = .null) → (∀ u, ¬(jGet body "url" = some (.str u))) →
      POST body fetched = ⟨400, .err "URL is required"⟩)
    ∧ (∀ u, jGet body "url" = some (.str u) → u = "" →
      POST body fetched = ⟨400, .err "URL is required"⟩)
    ∧ (∀ u, jGet body "url" = some (.str u) → ¬(u = "") →
      jsUrlParses u = false →
      POST body fetched = ⟨400, .err "Invalid URL format"⟩)
    ∧ (∀ u html, jGet body "url" = some (.str u) → jsUrlParses u = true →
      fetched = .ok html →
      POST body fetched = ⟨200, .ok (scrapeEventData html u)⟩)
    ∧ (∀ u msg, jGet body "url" = some (.str u) → jsUrlParses u = true →
      fetched = .error msg →
      POST body fetched =
        ⟨500, .err ("Failed to scrape event data: " ++ msg)⟩) := by
  have hne : ∀ u : String, jsUrlParses u = true → ¬(u = "") := by
    intro u h he
    rw [he] at h
    exact absurd h (by decide)
  refine ⟨?_, ?_, ?_, ?_, ?_, ?_⟩
  · intro hb
    subst hb
    rfl
  · intro hnn hmiss
    rw [POST_nonnull body fetched hnn]
    unfold POSTgo
    cases hg : jGet body "url" with
    | none => rfl
    | some v =>
      cases v with
      | str u => exact absurd hg (hmiss u)
      | null => rfl
      | bool b => rfl
      | num q => rfl
      | arr xs => rfl
      | obj fs => rfl
  · intro u hg he
    rw [POST_nonnull body fetched (jGet_some_nonnull body "url" _ hg)]
    unfold POSTgo
    rw [hg, he]
    rfl
  · intro u hg hne2 hbad
    rw [POST_nonnull body fetched (jGet_some_nonnull body "url" _ hg)]
    unfold POSTgo
    rw [hg]
    simp [hne2, hbad]
  · intro u html hg hok hf
    rw [POST_nonnull body fetched (jGet_some_nonnull body "url" _ hg)]
    unfold POSTgo
    rw [hg, hf]
    simp [hne u hok, hok, scrapeEventDataE]
  · intro u msg hg hok hf
    rw [POST_nonnull body fetched (jGet_some_nonnull body "url" _ hg)]
    unfold POSTgo
    rw [hg, hf]
    simp [hne u hok, hok, scrapeEventDataE]

/-- Claim C8 counterexample: for the body `{"url": ""}` the url field is a
present string that does not parse as a URL, yet the endpoint answers
`URL is required` (the falsy check fires first), not `Invalid URL format`
as the claim assigns to non-parsing strings. -/
theorem claim8_counterexample :
    jGet (Json.obj [("url", .str "")]) "url" = some (.str "") ∧
      jsUrlParses "" = false ∧
      POST (Json.obj [("url", .str "")]) (.error "unreachable") =
        ⟨400, .err "URL is required"⟩ ∧
      ¬((RouteBody.err "URL is required") = .err "Invalid URL format") := by
  refine ⟨by rfl, by rfl, by rfl, by decide⟩

/-- Witness for claim C8: the contract applied at four concrete
scenarios — the `null` body, an empty object body, a non-URL string, and
an unreachable host. -/
theorem claim8_witness :
    POST Json.null (.error "down") = ⟨500, .err destructureNullMsg⟩ ∧
      POST (Json.obj []) (.error "down") = ⟨400, .err "URL is required"⟩ ∧
      POST (Json.obj [("url", .str "not a url")]) (.error "down") =
        ⟨400, .err "Invalid URL format"⟩ ∧
      POST (Json.obj [("url", .str "https://unreachable.example/")])
          (.error "fetch failed") =
        ⟨500, .err "Failed to scrape event data: fetch failed"⟩ :=
  ⟨(claim8_route_contract Json.null (.error "down")).1 rfl,
   (claim8_route_contract (Json.obj []) (.error "down")).2.1
     (fun h => Json.noConfusion h) (fun u h => Option.noConfusion h),
   (claim8_route_contract (Json.obj [("url", .str "not a url")])
       (.error "down")).2.2.2.1 "not a url" (by rfl) (by decide) (by rfl),
   (claim8_route_contract (Json.obj [("url", .str "https://unreachable.example/")])
       (.error "fetch failed")).2.2.2.2.2 "https://unreachable.example/"
     "fetch failed" (by rfl) (by rfl) rfl⟩

/-- `takeWhile` of a list of non-digits is empty. -/
theorem takeWhile_digit_nil (l : List Char)
    (h : ∀ c ∈ l, c.isDigit = false) : l.takeWhile Char.isDigit = [] := by
  cases l with
  | nil => rfl
  | cons c t => simp [List.takeWhile_cons, h c (by simp)]

/-- `fracPart` of a digit-free list is empty. -/
theorem fracPart_nodigit (l : List Char)
    (h : ∀ c ∈ l, c.isDigit = false) : fracPart l = [] := by
  unfold fracPart
  split
  · rename_i r heq
    apply takeWhile_digit_nil
    intro c hc
    have h1 : c ∈ '.' :: r := List.mem_cons_of_mem _ hc
    rw [← heq] at h1
    exact h c ((List.dropWhile_sublist _).mem h1)
  · rfl

/-- `parseFloatRun` of a digit-free list is `NaN`. -/
theorem parseFloatRun_nodigit (l : List Char)
    (h : ∀ c ∈ l, c.isDigit = false) : parseFloatRun l = none := by
  unfold parseFloatRun
  rw [takeWhile_digit_nil l h, fracPart_nodigit l h]
  rfl

/-- Every character of a `firstNumRun` match comes from the input. -/
theorem firstNumRun_subset :
    ∀ l r, firstNumRun l = some r → ∀ c ∈ r, c ∈ l := by
  intro l
  induction l with
  | nil => intro r h; simp [firstNumRun] at h
  | cons a t ih =>
    intro r h c hc
    unfold firstNumRun at h
    dsimp only at h
    split at h
    · split at h
      · rename_i r2 heq
        cases h
        simp only [List.mem_append, List.mem_cons] at hc
        rcases hc with hc | hc | hc
        · exact (List.takeWhile_sublist _).mem hc
        · rw [hc]
          have : ('.' : Char) ∈ (a :: t).dropWhile isDigitComma := by
            rw [heq]; simp
          exact (List.dropWhile_sublist _).mem this
        · have h1 : c ∈ r2 := (List.takeWhile_sublist _).mem hc
          have h2 : c ∈ (a :: t).dropWhile isDigitComma := by
            rw [heq]; exact List.mem_cons_of_mem _ h1
          exact (List.dropWhile_sublist _).mem h2
      · cases h
        exact (List.takeWhile_sublist _).mem hc
    · exact List.mem_cons_of_mem a (ih r h c hc)

/-- `parsePrice` on a digit-free string is `null`. -/
theorem parsePrice_str_nodigit (s : String)
    (h : ∀ c ∈ s.data, c.isDigit = false) : parsePrice (.str s) = none := by
  unfold parsePrice
  dsimp only
  split
  · rfl
  · cases hr : firstNumRun s.data with
    | none => rfl
    | some run =>
      apply parseFloatRun_nodigit
      intro c hc
      exact h c (firstNumRun_subset s.data run hr c (List.mem_of_mem_filter hc))

/-- A successfully parsed digit run is non-negative. -/
theorem parseFloatRun_nonneg (l : List Char) (q : ℚ) :
    parseFloatRun l = some q → 0 ≤ q := by
  unfold parseFloatRun
  intro h
  split at h
  · cases h
  · cases h
    positivity

/-- Every price recovered from a string by `parsePrice` is non-negative. -/
theorem parsePrice_str_nonneg (s : String) (q : ℚ) :
    parsePrice (.str s) = some q → 0 ≤ q := by
  unfold parsePrice
  intro h
  dsimp only at h
  split at h
  · cases h
  · split at h
    · exact parseFloatRun_nonneg _ q h
    · cases h

/-- Claim C5: price normalization returns numeric input unchanged; the three
examples of the claim hold; and a string without any digit yields `null`. -/
theorem claim5_price_normalization :
    (∀ q : ℚ, parsePrice (.num q) = some q)
    ∧ parsePrice (.str "100 SEK") = some 100
    ∧ parsePrice (.str "$1,200.50") = some (1200.5 : ℚ)
    ∧ parsePrice (.str "free") = none
    ∧ (∀ s : String, (∀ c ∈ s.data, c.isDigit = false) →
        parsePrice (.str s) = none) := by
  refine ⟨fun q => rfl, ?_, ?_, by rfl, parsePrice_str_nodigit⟩
  · with_unfolding_all decide
  · with_unfolding_all decide

/-- Witness for claim C5 at the digit-free input `"free"`. -/
theorem claim5_witness : parsePrice (.str "free") = none :=
  claim5_price_normalization.2.2.2.2 "free" (by decide)

/-- `attachCategories` leaves the price field unchanged. -/
theorem attachCategories_price (ed : ScrapedEventData) :
    (attachCategories ed).price = ed.price := by
  unfold attachCategories
  simp

/-- Every price of the heuristic fallback's price loop comes from string
normalization and is therefore non-negative. -/
theorem fallbackPrice_nonneg (html : String) (q : ℚ) :
    fallbackPrice html = some q → 0 ≤ q := by
  intro h
  refine firstSomeL_forall _ ?_ q h
  intro o ho a ha
  simp only [List.mem_map] at ho
  obtain ⟨p, _, rfl⟩ := ho
  split at ha
  · cases ha
  · split at ha
    · exact parsePrice_str_nonneg _ a ha
    · cases ha

/-- A page with no structured data whose fallback price parses. -/
def c9bHtml : String := "<p>price: 100 price: 200</p>"

/-- Claim C9 (amended): every price recovered by string normalization is
non-negative, and hence so is every price of a heuristically-extracted
record; a structured Event's numeric offers price, however, is passed
through unchanged and may be negative (see the counterexample). -/
theorem claim9_price_nonneg (html url : String) :
    (∀ s q, parsePrice (.str s) = some q → 0 ≤ q)
    ∧ (∀ q, (∀ sd, parseSchemaOrgJsonLd html = some sd →
        strTruthy sd.name = false) →
      (scrapeEventData html url).price = some q → 0 ≤ q) := by
  refine ⟨parsePrice_str_nonneg, ?_⟩
  intro q hfb hq
  rw [scrapeEventData_fallback html url hfb, attachCategories_price] at hq
  exact fallbackPrice_nonneg html q hq

/-- A page whose structured Event carries a numeric offers price of −5. -/
def c9Html : String :=
  "<script type=\"application/ld+json\">\x7b\"@type\":\"Event\",\"name\":\"X\",\"offers\":\x7b\"price\":-5\x7d\x7d</script>"

/-- Claim C9 counterexample: the record returned by `scrapeEventData` for a
structured Event with offers price −5 carries the negative price −5,
refuting the claim that every returned price is non-negative. -/
theorem claim9_counterexample :
    (scrapeEventData c9Html "https://ex.test/").price = some (-5) ∧
      (-5 : ℚ) < 0 := by
  constructor
  · with_unfolding_all decide
  · norm_num

/-- Witness for claim C9's amended theorem: string normalization at
`"100 SEK"`, and the fallback record of a page whose price loop finds a
second labelled price. -/
theorem claim9_witness :
    parsePrice (.str "100 SEK") = some 100 ∧ 0 ≤ (100 : ℚ) ∧
      (scrapeEventData c9bHtml "https://x.test/").price = some 200 ∧
      0 ≤ (200 : ℚ) :=
  ⟨by with_unfolding_all decide,
   (claim9_price_nonneg c9bHtml "https://x.test/").1 "100 SEK" 100
     (by with_unfolding_all decide),
   by with_unfolding_all decide,
   (claim9_price_nonneg c9bHtml "https://x.test/").2 200
     (by intro sd h
         rw [show parseSchemaOrgJsonLd c9bHtml = none from rfl] at h
         exact Option.noConfusion h)
     (by with_unfolding_all decide)⟩

/-- A returned Event record originates in an Event-typed entity of the
schema list. -/
theorem scanSchemas_sound :
    ∀ l (ev : ScrapedEventData), scanSchemas l = .ok (some ev) →
      ∃ j ∈ l, typeIsEvent (jGet j "@type") = true ∧ extractEvent j = .ok ev := by
  intro l
  induction l with
  | nil => intro ev h; simp [scanSchemas] at h
  | cons j rest ih =>
    intro ev h
    unfold scanSchemas at h
    split at h
    · cases h
    · split at h
      · rename_i ht
        split at h
        · rename_i ev2 heq
          cases h
          exact ⟨j, by simp, ht, heq⟩
        · cases h
      · obtain ⟨j2, hm, ht2, he⟩ := ih ev h
        exact ⟨j2, by simp [hm], ht2, he⟩

/-- Whatever `parseSchemaOrgJsonLd` returns came from a parsed script block
containing an Event-typed entity. -/
theorem parseSchemaOrg_sound (html : String) (ev : ScrapedEventData)
    (h : parseSchemaOrgJsonLd html = some ev) :
    ∃ c ∈ scriptBlockContents html, ∃ v, jsonParse c = some v ∧
      ∃ j ∈ toSchemas v, typeIsEvent (jGet j "@type") = true ∧
        extractEvent j = .ok ev := by
  unfold parseSchemaOrgJsonLd at h
  have hm := firstSomeL_mem _ _ h
  simp only [List.mem_map] at hm
  obtain ⟨c, hc, hpc⟩ := hm
  refine ⟨c, hc, ?_⟩
  unfold processBlock at hpc
  split at hpc
  · cases hpc
  · rename_i v hv
    split at hpc
    · cases hpc
    · rename_i r hr
      rw [hpc] at hr
      exact ⟨v, hv, scanSchemas_sound _ ev hr⟩

/-- A parsed block whose schema scan yields an Event makes the extractor
return non-null. -/
theorem parseSchemaOrg_complete (html : String) (c : String)
    (hc : c ∈ scriptBlockContents html) (v : Json) (ev : ScrapedEventData)
    (hv : jsonParse c = some v)
    (hs : scanSchemas (toSchemas v) = .ok (some ev)) :
    (parseSchemaOrgJsonLd html).isSome := by
  unfold parseSchemaOrgJsonLd
  apply firstSomeL_isSome_of_mem _ ev
  simp only [List.mem_map]
  refine ⟨c, hc, ?_⟩
  unfold processBlock
  rw [hv]
  dsimp only
  rw [hs]

/-- A scalar string name of the matched entity lands in the record. -/
theorem extractEvent_name_str (j : Json) (ev : ScrapedEventData) (s : String)
    (hj : jGet j "name" = some (.str s)) (hs : ¬(s = ""))
    (h : extractEvent j = .ok ev) : ev.name = some s := by
  unfold extractEvent at h
  split at h
  · cases h
  · cases h
    simp [hj, truthy, jFirstStr, hs]

/-- An array-typed name contributes its first element. -/
theorem extractEvent_name_arr (j : Json) (ev : ScrapedEventData) (s : String)
    (rest : List Json) (hj : jGet j "name" = some (.arr (.str s :: rest)))
    (h : extractEvent j = .ok ev) : ev.name = some s := by
  unfold extractEvent at h
  split at h
  · cases h
  · cases h
    simp [hj, truthy, jFirstStr]

/-- Claim C2 (amended): the structured extractor returns non-null exactly
when some script block parses as JSON and its schema scan reaches an
Event-typed entity without a null-induced `TypeError`; **no name is
required** — a nameless first Event yields a non-null record with name
unset (the name check lives in the orchestrator) — and when the matched
entity has a truthy string (or string-headed array) name, the record's name
equals it. -/
theorem claim2_structured_extractor (html : String) :
    (∀ ev, parseSchemaOrgJsonLd html = some ev →
      ∃ c ∈ scriptBlockContents html, ∃ v, jsonParse c = some v ∧
        ∃ j ∈ toSchemas v, typeIsEvent (jGet j "@type") = true ∧
          extractEvent j = .ok ev)
    ∧ (∀ c ∈ scriptBlockContents html, ∀ v (ev : ScrapedEventData),
        jsonParse c = some v → scanSchemas (toSchemas v) = .ok (some ev) →
        (parseSchemaOrgJsonLd html).isSome)
    ∧ (∀ j ev s, extractEvent j = .ok ev → jGet j "name" = some (.str s) →
        ¬(s = "") → ev.name = some s)
    ∧ (∀ j ev s rest, extractEvent j = .ok ev →
        jGet j "name" = some (.arr (.str s :: rest)) → ev.name = some s) :=
  ⟨parseSchemaOrg_sound html,
   fun c hc v ev hv hs => parseSchemaOrg_complete html c hc v ev hv hs,
   fun j ev s h hj hs => extractEvent_name_str j ev s hj hs h,
   fun j ev s rest h hj => extractEvent_name_arr j ev s rest hj h⟩

/-- A page whose only linked-data block is an Event without a name. -/
def c2Html : String :=
  "<script type=\"application/ld+json\">\x7b\"@type\":\"Event\"\x7d</script>"

/-- Claim C2 counterexample: for a page whose first (and only) matching
Event entity has no name field, `parseSchemaOrgJsonLd` returns a non-null
record (with every field unset), refuting the claim that it returns null. -/
theorem claim2_counterexample :
    parseSchemaOrgJsonLd c2Html = some {} ∧
      ({} : ScrapedEventData).name = none :=
  ⟨by rfl, rfl⟩

/-- Witness for claim C2's amended theorem at the nameless-Event page. -/
theorem claim2_witness :
    ∃ c ∈ scriptBlockContents c2Html, ∃ v, jsonParse c = some v ∧
      ∃ j ∈ toSchemas v, typeIsEvent (jGet j "@type") = true ∧
        extractEvent j = .ok ({} : ScrapedEventData) :=
  (claim2_structured_extractor c2Html).1 {} (by rfl)

/-- Inserting into the sorted tail permutes. -/
theorem insDesc_perm (x : String × Nat) :
    ∀ l, List.Perm (insDesc x l) (x :: l) := by
  intro l
  induction l with
  | nil => exact List.Perm.refl _
  | cons y ys ih =>
    unfold insDesc
    split
    · exact (ih.cons y).trans (List.Perm.swap x y ys)
    · exact List.Perm.refl _

/-- The stable sort permutes its input. -/
theorem sortDesc_perm : ∀ l, List.Perm (sortDesc l) l := by
  intro l
  induction l with
  | nil => exact List.Perm.refl _
  | cons x xs ih => exact (insDesc_perm x (sortDesc xs)).trans (ih.cons x)

/-- The head of an insertion. -/
theorem insDesc_head (x : String × Nat) (l : List (String × Nat)) :
    (insDesc x l).head? =
      (match l.head? with
       | some y => if y.2 > x.2 then some y else some x
       | none => some x) := by
  cases l with
  | nil => rfl
  | cons y ys =>
    unfold insDesc
    split
    · rename_i hgt
      simp [hgt]
    · rename_i hle
      simp only [List.head?_cons]
      rw [if_neg hle]

/-- Insertion preserves descending sortedness. -/
theorem insDesc_sorted (x : String × Nat) :
    ∀ l, List.Chain' (fun a b : String × Nat => b.2 ≤ a.2) l →
      List.Chain' (fun a b : String × Nat => b.2 ≤ a.2) (insDesc x l) := by
  intro l
  induction l with
  | nil => intro _; simp [insDesc]
  | cons y ys ih =>
    intro hch
    rw [List.chain'_cons'] at hch
    obtain ⟨hhead, htail⟩ := hch
    unfold insDesc
    split
    · rename_i hgt
      rw [List.chain'_cons']
      refine ⟨?_, ih htail⟩
      intro h hh
      rw [insDesc_head] at hh
      cases hy : ys.head? with
      | none =>
        rw [hy] at hh
        simp only [Option.mem_def, Option.some.injEq] at hh
        subst hh
        omega
      | some z =>
        rw [hy] at hh
        simp only [Option.mem_def] at hh
        by_cases hz : z.2 > x.2
        · rw [if_pos hz] at hh
          injection hh with hh2
          subst hh2
          exact hhead z (by rw [hy]; rfl)
        · rw [if_neg hz] at hh
          injection hh with hh2
          subst hh2
          omega
    · rename_i hle
      rw [List.chain'_cons']
      refine ⟨?_, by rw [List.chain'_cons']; exact ⟨hhead, htail⟩⟩
      intro h hh
      simp only [List.head?_cons, Option.mem_def, Option.some.injEq] at hh
      subst hh
      omega

/-- The stable sort is descending in scores. -/
theorem sortDesc_sorted :
    ∀ l, List.Chain' (fun a b : String × Nat => b.2 ≤ a.2) (sortDesc l) := by
  intro l
  induction l with
  | nil => simp [sortDesc]
  | cons x xs ih => exact insDesc_sorted x (sortDesc xs) ih

/-- The first topic attaining the maximal score, computed directly. -/
def firstMaxL : List (String × Nat) → Option (String × Nat)
  | [] => none
  | x :: xs =>
    match firstMaxL xs with
    | none => some x
    | some m => if m.2 > x.2 then some m else some x

/-- The sorted head is the first maximum. -/
theorem sortDesc_head_firstMax :
    ∀ l, (sortDesc l).head? = firstMaxL l := by
  intro l
  induction l with
  | nil => rfl
  | cons x xs ih =>
    unfold sortDesc firstMaxL
    rw [insDesc_head, ih]
    cases firstMaxL xs <;> simp

/-- `firstMaxL` of a nonempty list is present. -/
theorem firstMaxL_cons_isSome (x : String × Nat) (xs : List (String × Nat)) :
    (firstMaxL (x :: xs)).isSome := by
  unfold firstMaxL
  cases firstMaxL xs with
  | none => simp
  | some m =>
    dsimp only
    split <;> simp

/-- The first maximum is a member bounding every score. -/
theorem firstMaxL_mem_max :
    ∀ l m, firstMaxL l = some m → m ∈ l ∧ ∀ p ∈ l, p.2 ≤ m.2 := by
  intro l
  induction l with
  | nil => intro m h; cases h
  | cons x xs ih =>
    intro m h
    unfold firstMaxL at h
    cases hf : firstMaxL xs with
    | none =>
      rw [hf] at h
      dsimp only at h
      injection h with h2
      subst h2
      refine ⟨by simp, ?_⟩
      intro p hp
      rcases List.mem_cons.mp hp with rfl | hp2
      · exact le_refl _
      · cases xs with
        | nil => cases hp2
        | cons a b =>
          exact absurd hf (by
            have hs := firstMaxL_cons_isSome a b
            intro hcon
            rw [hcon] at hs
            cases hs)
    | some mx =>
      rw [hf] at h
      dsimp only at h
      obtain ⟨hmem, hmax⟩ := ih mx hf
      by_cases hgt : mx.2 > x.2
      · rw [if_pos hgt] at h
        injection h with h2
        subst h2
        refine ⟨List.mem_cons_of_mem _ hmem, ?_⟩
        intro p hp
        rcases List.mem_cons.mp hp with rfl | hp2
        · omega
        · exact hmax p hp2
      · rw [if_neg hgt] at h
        injection h with h2
        subst h2
        refine ⟨by simp, ?_⟩
        intro p hp
        rcases List.mem_cons.mp hp with rfl | hp2
        · exact le_refl _
        · have := hmax p hp2
          omega

/-- The first maximum of the positive entries decomposes the original list:
everything before it scores strictly less, everything at all scores at
most it. -/
theorem firstMaxL_filter_decomp :
    ∀ (l : List (String × Nat)) m,
      firstMaxL (l.filter (fun p => 0 < p.2)) = some m →
      ∃ pre post, l = pre ++ m :: post ∧ 0 < m.2 ∧
        (∀ p ∈ pre, p.2 < m.2) ∧ (∀ p ∈ l, p.2 ≤ m.2) := by
  intro l
  induction l with
  | nil => intro m h; cases h
  | cons x xs ih =>
    intro m h
    by_cases hx : 0 < x.2
    · rw [List.filter_cons_of_pos (by simpa using hx)] at h
      unfold firstMaxL at h
      cases hf : firstMaxL (xs.filter (fun p => 0 < p.2)) with
      | none =>
        rw [hf] at h
        dsimp only at h
        injection h with h2
        subst h2
        refine ⟨[], xs, by simp, hx, by simp, ?_⟩
        intro p hp
        rcases List.mem_cons.mp hp with rfl | hp2
        · exact le_refl _
        · have hnil : xs.filter (fun p => 0 < p.2) = [] := by
            cases hxf : xs.filter (fun p => 0 < p.2) with
            | nil => rfl
            | cons a b =>
              exact absurd hf (by
                rw [hxf]
                have hs := firstMaxL_cons_isSome a b
                intro hcon
                rw [hcon] at hs
                cases hs)
          have hz := List.filter_eq_nil_iff.mp hnil p hp2
          simp only [decide_eq_true_eq] at hz
          omega
      | some mx =>
        rw [hf] at h
        dsimp only at h
        obtain ⟨pre, post, heq, hmpos, hpre, hall⟩ := ih mx hf
        by_cases hgt : mx.2 > x.2
        · rw [if_pos hgt] at h
          injection h with h2
          subst h2
          refine ⟨x :: pre, post, by simp [heq], hmpos, ?_, ?_⟩
          · intro p hp
            rcases List.mem_cons.mp hp with rfl | hp2
            · omega
            · exact hpre p hp2
          · intro p hp
            rcases List.mem_cons.mp hp with rfl | hp2
            · omega
            · exact hall p hp2
        · rw [if_neg hgt] at h
          injection h with h2
          subst h2
          refine ⟨[], xs, by simp, hx, by simp, ?_⟩
          intro p hp
          rcases List.mem_cons.mp hp with rfl | hp2
          · exact le_refl _
          · have := hall p hp2
            omega
    · rw [List.filter_cons_of_neg (by simpa using hx)] at h
      obtain ⟨pre, post, heq, hmpos, hpre, hall⟩ := ih m h
      refine ⟨x :: pre, post, by simp [heq], hmpos, ?_, ?_⟩
      · intro p hp
        rcases List.mem_cons.mp hp with rfl | hp2
        · omega
        · exact hpre p hp2
      · intro p hp
        rcases List.mem_cons.mp hp with rfl | hp2
        · omega
        · exact hall p hp2

/-- `scoredOf` is the positive filter of the full scored list. -/
theorem scoredOf_def (ed : ScrapedEventData) :
    scoredOf ed = (scoredListOf ed).filter (fun p => 0 < p.2) := by rfl

/-- Every entry of `categoryScores` has a positive score. -/
theorem scoredOf_pos (ed : ScrapedEventData) (p : String × Nat)
    (hp : p ∈ scoredOf ed) : 0 < p.2 := by
  rw [scoredOf_def] at hp
  simpa using (List.mem_filter.mp hp).2

/-- Every entry of `categoryScores` comes from the full scored list. -/
theorem scoredOf_sub (ed : ScrapedEventData) (p : String × Nat)
    (hp : p ∈ scoredOf ed) : p ∈ scoredListOf ed := by
  rw [scoredOf_def] at hp
  exact (List.mem_filter.mp hp).1

/-- A positively scored topic is an entry of `categoryScores`. -/
theorem scoredOf_mem (ed : ScrapedEventData) (p : String × Nat)
    (hp : p ∈ scoredListOf ed) (hpos : 0 < p.2) : p ∈ scoredOf ed := by
  rw [scoredOf_def]
  exact List.mem_filter.mpr ⟨hp, by simpa using hpos⟩

/-- Filtering positives after sorting a positive list changes nothing. -/
theorem sortDesc_filter_id (l : List (String × Nat))
    (hl : ∀ p ∈ l, 0 < p.2) :
    (sortDesc l).filter (fun p => 0 < p.2) = sortDesc l := by
  apply List.filter_eq_self.mpr
  intro p hp
  simpa using hl p ((sortDesc_perm l).mem_iff.mp hp)

/-- The source's post-sort positive filter is the identity. -/
theorem sortedOf_eq (ed : ScrapedEventData) :
    sortedOf ed = sortDesc (scoredOf ed) := by
  unfold sortedOf
  exact sortDesc_filter_id _ (fun p hp => scoredOf_pos ed p hp)

/-- The sorted list is empty exactly when no topic scored. -/
theorem sortedOf_nil_iff (ed : ScrapedEventData) :
    sortedOf ed = [] ↔ ∀ p ∈ scoredListOf ed, p.2 = 0 := by
  rw [sortedOf_eq]
  constructor
  · intro h p hp
    have hlen := (sortDesc_perm (scoredOf ed)).length_eq
    rw [h] at hlen
    have hnil : scoredOf ed = [] := List.length_eq_zero.mp hlen.symm
    by_contra hne
    have hpos : 0 < p.2 := by omega
    have := scoredOf_mem ed p hp hpos
    rw [hnil] at this
    cases this
  · intro h
    have hnil : scoredOf ed = [] := by
      by_contra hne
      cases hsc : scoredOf ed with
      | nil => exact hne hsc
      | cons q qs =>
        have hq : q ∈ scoredOf ed := by rw [hsc]; simp
        have := h q (scoredOf_sub ed q hq)
        have := scoredOf_pos ed q hq
        omega
    rw [hnil]
    rfl

/-- Any list arising as a `sortDesc` image is sorted by descending score. -/
theorem sortDesc_eq_sorted (l m : List (String × Nat))
    (hm : sortDesc m = l) :
    List.Chain' (fun a b : String × Nat => b.2 ≤ a.2) l := by
  rw [← hm]
  exact sortDesc_sorted m

/-- Claim C6: `detectCategories`, over the lowercased concatenation of
name, description and URL, scores each topic by word-boundary keyword
occurrences, discards zero-score topics, and returns primary = the first
topic in declaration order attaining the maximal positive score (or null
when all scores are zero) and suggestions = the topics with the top
(at most five) scores: a sub-permutation of the positive topics, in
descending score order, of length `min 5 (number of positives)`, every
left-out positive topic scoring no more than every selected one (so with
at most five positives, all of them). -/
theorem claim6_detect_categories (ed : ScrapedEventData) :
    ((detectCategories ed).1 = none ↔ ∀ p ∈ scoredListOf ed, p.2 = 0)
    ∧ (∀ nm, (detectCategories ed).1 = some nm →
        ∃ pre m post, scoredListOf ed = pre ++ m :: post ∧ nm = m.1 ∧
          0 < m.2 ∧ (∀ p ∈ pre, p.2 < m.2) ∧
          (∀ p ∈ scoredListOf ed, p.2 ≤ m.2))
    ∧ ((detectCategories ed).2 = [] ↔ ∀ p ∈ scoredListOf ed, p.2 = 0)
    ∧ (detectCategories ed).2.length ≤ 5
    ∧ (detectCategories ed).2.head? = (detectCategories ed).1
    ∧ (∃ ps : List (String × Nat), (detectCategories ed).2 = ps.map (·.1) ∧
        List.Chain' (fun a b : String × Nat => b.2 ≤ a.2) ps ∧
        (∀ p ∈ ps, p ∈ scoredListOf ed ∧ 0 < p.2) ∧
        List.Subperm ps ((scoredListOf ed).filter (fun p => 0 < p.2)) ∧
        ps.length =
          min 5 (((scoredListOf ed).filter (fun p => 0 < p.2)).length) ∧
        (∀ q ∈ (scoredListOf ed).filter (fun p => 0 < p.2), ¬(q ∈ ps) →
          ∀ p ∈ ps, q.2 ≤ p.2) ∧
        (((scoredListOf ed).filter (fun p => 0 < p.2)).length ≤ 5 →
          ∀ p ∈ scoredListOf ed, 0 < p.2 → p ∈ ps)) := by
  unfold detectCategories
  cases hs : sortedOf ed with
  | nil =>
    have hall : ∀ p ∈ scoredListOf ed, p.2 = 0 := (sortedOf_nil_iff ed).mp hs
    refine ⟨iff_of_true rfl hall, ?_, iff_of_true rfl hall, by simp,
      by simp, ?_⟩
    · intro nm h
      simp at h
    · have hfil : (scoredListOf ed).filter (fun p => 0 < p.2) = [] :=
        List.filter_eq_nil_iff.mpr (fun p hp => by simp [hall p hp])
      refine ⟨[], by simp, by simp, by simp, List.nil_subperm,
        by simp [hfil], ?_, ?_⟩
      · intro q hq
        rw [hfil] at hq
        cases hq
      · intro _ p hp hpos
        exact absurd (hall p hp) (by omega)
  | cons top rest =>
    have hsd : sortDesc (scoredOf ed) = top :: rest :=
      (sortedOf_eq ed).symm.trans hs
    have htop2 : top ∈ scoredOf ed := by
      have htop : top ∈ sortDesc (scoredOf ed) := by rw [hsd]; simp
      exact (sortDesc_perm (scoredOf ed)).mem_iff.mp htop
    have htoppos : 0 < top.2 := scoredOf_pos ed top htop2
    have htopmem : top ∈ scoredListOf ed := scoredOf_sub ed top htop2
    have hnotall : ¬(∀ p ∈ scoredListOf ed, p.2 = 0) := by
      intro hall
      exact absurd (hall top htopmem) (by omega)
    have hhead : firstMaxL ((scoredListOf ed).filter (fun p => 0 < p.2)) =
        some top := by
      rw [← scoredOf_def, ← sortDesc_head_firstMax, hsd]
      rfl
    have hchTop : List.Chain' (fun a b : String × Nat => b.2 ≤ a.2)
        (top :: rest) := sortDesc_eq_sorted (top :: rest) (scoredOf ed) hsd
    refine ⟨iff_of_false (by simp) hnotall, ?_,
      iff_of_false (by simp) hnotall, ?_, ?_, ?_⟩
    · intro nm h
      simp only [Option.some.injEq] at h
      obtain ⟨pre, post, heq, hpos, hpre, hallle⟩ :=
        firstMaxL_filter_decomp (scoredListOf ed) top hhead
      exact ⟨pre, top, post, heq, h.symm, hpos, hpre, hallle⟩
    · simp only [List.length_map, List.length_take]
      omega
    · simp
    · have hperm : (top :: rest).Perm (scoredOf ed) := by
        have h := sortDesc_perm (scoredOf ed)
        rw [hsd] at h
        exact h
      refine ⟨(top :: rest).take 5, rfl,
        hchTop.prefix (List.take_prefix 5 (top :: rest)), ?_, ?_, ?_, ?_, ?_⟩
      · intro p hp
        have hp2 : p ∈ top :: rest := List.take_subset 5 _ hp
        rw [← hsd] at hp2
        have hp3 : p ∈ scoredOf ed :=
          (sortDesc_perm (scoredOf ed)).mem_iff.mp hp2
        exact ⟨scoredOf_sub ed p hp3, scoredOf_pos ed p hp3⟩
      · rw [← scoredOf_def]
        exact ((List.take_sublist 5 (top :: rest)).subperm).trans hperm.subperm
      · rw [← scoredOf_def, List.length_take, hperm.length_eq]
      · intro q hq hqn p hp
        rw [← scoredOf_def] at hq
        have hqtr : q ∈ top :: rest := hperm.mem_iff.mpr hq
        have hpw : List.Pairwise (fun a b : String × Nat => b.2 ≤ a.2)
            (top :: rest) := by
          haveI : IsTrans (String × Nat)
              (fun a b : String × Nat => b.2 ≤ a.2) :=
            ⟨fun a b c h1 h2 => le_trans h2 h1⟩
          exact List.chain'_iff_pairwise.mp hchTop
        rw [← List.take_append_drop 5 (top :: rest)] at hpw hqtr
        obtain ⟨_, _, hcross⟩ := List.pairwise_append.mp hpw
        cases List.mem_append.mp hqtr with
        | inl hl => exact absurd hl hqn
        | inr hr => exact hcross p hp q hr
      · intro hlen p hp hpos
        rw [← scoredOf_def] at hlen
        have hlenTR : (top :: rest).length ≤ 5 := by
          rw [← hsd, (sortDesc_perm (scoredOf ed)).length_eq]
          exact hlen
        rw [List.take_of_length_le hlenTR, ← hsd]
        apply (sortDesc_perm (scoredOf ed)).mem_iff.mpr
        exact scoredOf_mem ed p hp hpos

/-- The classification example: an AI/ML summit record. -/
def c6Event : ScrapedEventData :=
  { name := some "AI and Machine Learning Summit",
    description := some "talks for every developer on cloud topics" }

/-- Witness for claim C6: on the AI/ML summit record the primary category
is `Technology`, the first topic in declaration order attaining the
maximal score. -/
theorem claim6_witness :
    ∃ pre m post, scoredListOf c6Event = pre ++ m :: post ∧
      "Technology" = m.1 ∧ 0 < m.2 ∧ (∀ p ∈ pre, p.2 < m.2) ∧
      (∀ p ∈ scoredListOf c6Event, p.2 ≤ m.2) :=
  (claim6_detect_categories c6Event).2.1 "Technology" (by rfl)
/-- A rendered decimal digit is a digit character. -/
theorem digitChar_isDigit (k : Nat) (h : k < 10) :
    (digitChar k).isDigit = true := by
  interval_cases k <;> decide

/-- Rendering then reading a decimal digit is the identity. -/
theorem digitVal_digitChar (k : Nat) (h : k < 10) :
    digitVal (digitChar k) = k := by
  interval_cases k <;> decide

/-- The four-digit field reads back a `pad4` rendering (mod 10000). -/
theorem fourDigits_pad4 (n : Nat) (r : List Char) :
    fourDigits (pad4 n ++ r) = some (n % 10000, r) := by
  have h1 : n / 1000 % 10 < 10 := Nat.mod_lt _ (by omega)
  have h2 : n / 100 % 10 < 10 := Nat.mod_lt _ (by omega)
  have h3 : n / 10 % 10 < 10 := Nat.mod_lt _ (by omega)
  have h4 : n % 10 < 10 := Nat.mod_lt _ (by omega)
  simp only [pad4, List.cons_append, List.nil_append, fourDigits,
    digitChar_isDigit _ h1, digitChar_isDigit _ h2, digitChar_isDigit _ h3,
    digitChar_isDigit _ h4, Bool.and_self, if_true,
    digitVal_digitChar _ h1, digitVal_digitChar _ h2,
    digitVal_digitChar _ h3, digitVal_digitChar _ h4, Option.some.injEq,
    Prod.mk.injEq, and_true]
  omega

/-- The two-digit field reads back a `pad2` rendering (mod 100). -/
theorem twoDigits_pad2 (n : Nat) (r : List Char) :
    twoDigits (pad2 n ++ r) = some (n % 100, r) := by
  have h1 : n / 10 % 10 < 10 := Nat.mod_lt _ (by omega)
  have h2 : n % 10 < 10 := Nat.mod_lt _ (by omega)
  simp only [pad2, List.cons_append, List.nil_append, twoDigits,
    digitChar_isDigit _ h1, digitChar_isDigit _ h2, Bool.and_self, if_true,
    digitVal_digitChar _ h1, digitVal_digitChar _ h2, Option.some.injEq,
    Prod.mk.injEq, and_true]
  omega

/-- `twoDigits` on a bare `pad2` rendering. -/
theorem twoDigits_pad2_nil (n : Nat) :
    twoDigits (pad2 n) = some (n % 100, []) := by
  have := twoDigits_pad2 n []
  rwa [List.append_nil] at this

/-- ISO parsing reads back the `YYYY-MM-DD` rendering of a valid date. -/
theorem parseIsoDate_format (v : Ymd) (hv : validYmd v = true) :
    parseIsoDate (pad4 v.y ++ '-' :: (pad2 v.m ++ '-' :: pad2 v.d)) =
      some v := by
  unfold validYmd at hv
  simp only [Bool.and_eq_true, decide_eq_true_eq] at hv
  obtain ⟨⟨⟨⟨hm1, hm2⟩, hd1⟩, hd2⟩, hy⟩ := hv
  have hymod : v.y % 10000 = v.y := Nat.mod_eq_of_lt (by omega)
  have hmmod : v.m % 100 = v.m := Nat.mod_eq_of_lt (by omega)
  have hdmod : v.d % 100 = v.d := by
    have : daysInMonth v.y v.m ≤ 31 := by
      unfold daysInMonth
      split
      · split <;> omega
      · split <;> omega
    exact Nat.mod_eq_of_lt (by omega)
  have hvv : validYmd ⟨v.y, v.m, v.d⟩ = true := by
    unfold validYmd
    simp only [Bool.and_eq_true, decide_eq_true_eq]
    exact ⟨⟨⟨⟨hm1, hm2⟩, hd1⟩, hd2⟩, hy⟩
  simp only [parseIsoDate, fourDigits_pad4, hymod, twoDigits_pad2, hmmod,
    twoDigits_pad2_nil, hdmod, hvv, if_true]

/-- Native parsing reads back the `YYYY-MM-DD` rendering of a valid date. -/
theorem jsNewDate_format (v : Ymd) (hv : validYmd v = true) :
    jsNewDate (formatYmd v) = some v := by
  unfold jsNewDate formatYmd
  simp only [String.data, List.append_assoc, List.cons_append]
  rw [parseIsoDate_format v hv]

/-- A rendered date is never the empty string. -/
theorem formatYmd_ne_empty (v : Ymd) : formatYmd v ≠ "" := by
  simp [formatYmd, pad4, String.ext_iff]

/-- `parseDate` is the identity on rendered valid dates. -/
theorem parseDate_format (v : Ymd) (hv : validYmd v = true) :
    parseDate (formatYmd v) = some (formatYmd v) := by
  unfold parseDate
  rw [if_neg (formatYmd_ne_empty v), jsNewDate_format v hv]

/-- The rendering only sees the year modulo 10000. -/
theorem formatYmd_mod (y m d : Nat) :
    formatYmd ⟨y, m, d⟩ = formatYmd ⟨y % 10000, m, d⟩ := by
  have h1 : y / 1000 % 10 = y % 10000 / 1000 % 10 := by omega
  have h2 : y / 100 % 10 = y % 10000 / 100 % 10 := by omega
  have h3 : y / 10 % 10 = y % 10000 / 10 % 10 := by omega
  have h4 : y % 10 = y % 10000 % 10 := by omega
  simp only [formatYmd, pad4, h1, h2, h3, h4]

/-- Every month has at least 28 days. -/
theorem daysInMonth_ge (y m : Nat) : 28 ≤ daysInMonth y m := by
  unfold daysInMonth
  repeat' split
  all_goals omega

/-- Every month has at most 31 days. -/
theorem daysInMonth_le (y m : Nat) : daysInMonth y m ≤ 31 := by
  unfold daysInMonth
  repeat' split
  all_goals omega

/-- Unfolding of the validity predicate. -/
theorem validYmd_iff (v : Ymd) : validYmd v = true ↔
    1 ≤ v.m ∧ v.m ≤ 12 ∧ 1 ≤ v.d ∧ v.d ≤ daysInMonth v.y v.m ∧
      v.y ≤ 9999 := by
  unfold validYmd
  simp only [Bool.and_eq_true, decide_eq_true_eq]
  exact ⟨fun ⟨⟨⟨⟨a, b⟩, c⟩, d⟩, e⟩ => ⟨a, b, c, d, e⟩,
    fun ⟨a, b, c, d, e⟩ => ⟨⟨⟨⟨a, b⟩, c⟩, d⟩, e⟩⟩

/-- Validity of a literal date, with reduced projections. -/
theorem validYmd_mk (y m d : Nat) : validYmd ⟨y, m, d⟩ = true ↔
    1 ≤ m ∧ m ≤ 12 ∧ 1 ≤ d ∧ d ≤ daysInMonth y m ∧ y ≤ 9999 :=
  validYmd_iff ⟨y, m, d⟩

/-- The successor of a valid day renders like some valid date (the year
10000 overflow renders as year 0000). -/
theorem nextDay_format (v : Ymd) (hv : validYmd v = true) :
    ∃ w, validYmd w = true ∧ formatYmd (nextDay v) = formatYmd w := by
  rw [validYmd_iff] at hv
  obtain ⟨hm1, hm2, hd1, hd2, hy⟩ := hv
  unfold nextDay
  split
  · rename_i h
    exact ⟨⟨v.y, v.m, v.d + 1⟩,
      (validYmd_mk _ _ _).mpr ⟨hm1, hm2, by omega, by omega, hy⟩, rfl⟩
  · split
    · rename_i h hm
      refine ⟨⟨v.y, v.m + 1, 1⟩,
        (validYmd_mk _ _ _).mpr ⟨by omega, by omega, by omega, ?_, hy⟩, rfl⟩
      have := daysInMonth_ge v.y (v.m + 1)
      omega
    · refine ⟨⟨(v.y + 1) % 10000, 1, 1⟩,
        (validYmd_mk _ _ _).mpr ⟨by omega, by omega, by omega, ?_, by omega⟩,
        formatYmd_mod _ _ _⟩
      have := daysInMonth_ge ((v.y + 1) % 10000) 1
      omega

/-- The predecessor of a valid day is valid. -/
theorem prevDay_valid (v : Ymd) (hv : validYmd v = true) :
    validYmd (prevDay v) = true := by
  rw [validYmd_iff] at hv
  obtain ⟨hm1, hm2, hd1, hd2, hy⟩ := hv
  unfold prevDay
  split
  · rename_i h
    exact (validYmd_mk _ _ _).mpr ⟨hm1, hm2, by omega, by omega, hy⟩
  · split
    · rename_i h hm
      refine (validYmd_mk _ _ _).mpr ⟨by omega, by omega, ?_, le_refl _,
        by omega⟩
      have := daysInMonth_ge v.y (v.m - 1)
      omega
    · refine (validYmd_mk _ _ _).mpr ⟨by omega, by omega, by omega, ?_,
        by omega⟩
      norm_num [daysInMonth]

/-- A first-of-month date renders like some valid date. -/
theorem format_md1_valid (y m : Nat) (hm1 : 1 ≤ m) (hm2 : m ≤ 12) :
    ∃ w, validYmd w = true ∧ formatYmd ⟨y, m, 1⟩ = formatYmd w := by
  refine ⟨⟨y % 10000, m, 1⟩,
    (validYmd_mk _ _ _).mpr ⟨hm1, hm2, le_refl _, ?_, by omega⟩,
    formatYmd_mod _ _ _⟩
  have := daysInMonth_ge (y % 10000) m
  omega

/-- Every ISO-parsed date renders like some valid calendar date. -/
theorem parseIsoDate_valid (l : List Char) (v : Ymd)
    (h : parseIsoDate l = some v) :
    ∃ w, validYmd w = true ∧ formatYmd v = formatYmd w := by
  unfold parseIsoDate at h
  repeat' split at h
  all_goals try cases h
  all_goals try simp only [Bool.and_eq_true, decide_eq_true_eq] at *
  all_goals try exact ⟨_, by assumption, rfl⟩
  all_goals try exact format_md1_valid _ 1 (le_refl 1) (by omega)
  all_goals try exact format_md1_valid _ _ (by omega) (by omega)
  · exact nextDay_format _ (by assumption)
  · exact ⟨_, prevDay_valid _ (by assumption), rfl⟩

/-- Every legacy-parsed date is valid. -/
theorem parseUsLegacy_valid (l : List Char) (v : Ymd)
    (h : parseUsLegacy l = some v) : validYmd v = true := by
  unfold parseUsLegacy at h
  repeat' split at h
  all_goals try cases h
  assumption

/-- Every date-fns-parsed date is valid. -/
theorem dateFnsParse_valid (toks : List FTok) (s : String) (v : Ymd)
    (h : dateFnsParse toks s = some v) : validYmd v = true := by
  unfold dateFnsParse at h
  repeat' split at h
  all_goals try cases h
  assumption

/-- A property holding of every element of a first-success fold holds of
its result. -/
theorem firstSomeFold_valid (P : Ymd → Prop) :
    ∀ (l : List (Option Ymd)) (acc : Option Ymd),
      (∀ o ∈ l, ∀ v, o = some v → P v) →
      (∀ v, acc = some v → P v) →
      ∀ v,
        l.foldl (fun acc r =>
          match acc with | some v => some v | none => r) acc = some v →
        P v := by
  intro l
  induction l with
  | nil => intro acc _ hacc v hfold; exact hacc v hfold
  | cons o rest ih =>
    intro acc hl hacc v hfold
    simp only [List.foldl_cons] at hfold
    cases hac : acc with
    | some w =>
      rw [hac] at hfold
      exact ih (some w) (fun o2 ho2 => hl o2 (List.mem_cons_of_mem _ ho2))
        (fun v2 hv2 => hacc v2 (hac.trans hv2)) v hfold
    | none =>
      rw [hac] at hfold
      exact ih o (fun o2 ho2 => hl o2 (List.mem_cons_of_mem _ ho2))
        (fun v2 hv2 => hl o (List.mem_cons_self _ _) v2 hv2) v hfold

/-- Every date of the format loop is valid. -/
theorem dateFnsFirst_valid (s : String) (v : Ymd)
    (h : dateFnsFirst s = some v) : validYmd v = true := by
  unfold dateFnsFirst at h
  refine firstSomeFold_valid (fun w => validYmd w = true) _ none ?_
    (fun _ hv => by cases hv) v h
  intro o ho w how
  obtain ⟨f, _, rfl⟩ := List.mem_map.mp ho
  exact dateFnsParse_valid f s w how

/-- Every natively parsed date renders like some valid calendar date. -/
theorem jsNewDate_valid (s : String) (v : Ymd)
    (h : jsNewDate s = some v) :
    ∃ w, validYmd w = true ∧ formatYmd v = formatYmd w := by
  unfold jsNewDate at h
  cases hp : parseIsoDate s.data with
  | some u =>
    rw [hp] at h
    injection h with h
    subst h
    exact parseIsoDate_valid s.data u hp
  | none =>
    rw [hp] at h
    exact ⟨v, parseUsLegacy_valid s.data v h, rfl⟩

/-- Every non-null `parseDate` output is the rendering of a valid
calendar date. -/
theorem parseDate_some (s o : String) (h : parseDate s = some o) :
    ∃ w, validYmd w = true ∧ o = formatYmd w := by
  unfold parseDate at h
  split at h
  · cases h
  · cases hj : jsNewDate s with
    | some u =>
      rw [hj] at h
      injection h with h
      obtain ⟨w, hw, he⟩ := jsNewDate_valid s u hj
      exact ⟨w, hw, h.symm.trans he⟩
    | none =>
      rw [hj] at h
      cases hf : dateFnsFirst s with
      | some u =>
        rw [hf] at h
        injection h with h
        exact ⟨u, dateFnsFirst_valid s u hf, h.symm⟩
      | none =>
        rw [hf] at h
        cases h

/-- Claim C4: `parseDate` returns either null or a calendar-date string
and is idempotent on its own output: the three example inputs
`2025-03-15`, `03/15/2025` and `15-03-2025` all normalize to
`2025-03-15`, and every non-null output is the `YYYY-MM-DD` rendering of
a valid calendar date on which `parseDate` is the identity. -/
theorem claim4_date_normalization :
    parseDate "2025-03-15" = some "2025-03-15"
    ∧ parseDate "03/15/2025" = some "2025-03-15"
    ∧ parseDate "15-03-2025" = some "2025-03-15"
    ∧ ∀ s o, parseDate s = some o →
        (∃ v : Ymd, validYmd v = true ∧ o = formatYmd v)
        ∧ parseDate o = some o := by
  refine ⟨by rfl, by rfl, by rfl, ?_⟩
  intro s o h
  obtain ⟨w, hw, rfl⟩ := parseDate_some s o h
  exact ⟨⟨w, hw, rfl⟩, parseDate_format w hw⟩

/-- Witness for claim C4: the output `2025-03-15` is a calendar-date
rendering and a `parseDate` fixed point. -/
theorem claim4_witness :
    (∃ v : Ymd, validYmd v = true ∧ "2025-03-15" = formatYmd v)
    ∧ parseDate "2025-03-15" = some "2025-03-15" :=
  claim4_date_normalization.2.2.2 "2025-03-15" "2025-03-15" (by rfl)
end Scraper
